import Mathlib

/-!
  # Signaling-server model for the video-conferencing repository

  A shallow embedding of the WebSocket signaling server in
  `server/src/index.ts` (the primary variant, with the `requestId`
  correlation field and the own-producer guards), of the `produce` case of
  the embedded server variant found in the second document of
  `server/src/worker.ts`, and of the Egress Bridge of spec §4.5 (whose
  implementation is absent from the sources; only the
  `config.mediasoup.plainTransport` block witnesses it).

  JavaScript `Map`s are modelled as association lists with JS-`Map`
  semantics (`set` replaces in place, insertion order preserved); the
  mediasoup engine is modelled as an oracle: engine-assigned identifiers
  arrive as fields of the inbound events and `router.canConsume` is a
  function parameter. Handlers are modelled as atomic steps — the claims
  under study quantify over quiescent points between whole operations, so
  each `await` is taken to run to completion before the next operation is
  dispatched. Sockets are identified with the `peerId` captured at
  connection time: under the registry discipline at most one open
  connection per `peerId` exists, and the theorems about broadcasts only
  quantify over traces respecting that discipline.
-/

namespace VideoConf

/-! ## Association-list model of the JS Map -/

/-- JS `Map.prototype.get`: first (and, on states reachable through the
operations below, only) entry with the key. -/
def mapGet {α : Type} : List (String × α) → String → Option α
  | [], _ => none
  | e :: rest, k => if e.1 = k then some e.2 else mapGet rest k

/-- JS `Map.prototype.set`: replace the value in place when the key is
present, otherwise append a fresh entry (JS maps preserve insertion
order). -/
def mapSet {α : Type} : List (String × α) → String → α → List (String × α)
  | [], k, v => [(k, v)]
  | e :: rest, k, v => if e.1 = k then (k, v) :: rest else e :: mapSet rest k v

/-- JS `Map.prototype.delete`. -/
def mapDelete {α : Type} : List (String × α) → String → List (String × α)
  | [], _ => []
  | e :: rest, k => if e.1 = k then mapDelete rest k else e :: mapDelete rest k

/-- JS `Map.prototype.has`. -/
def mapHas {α : Type} (m : List (String × α)) (k : String) : Bool :=
  (mapGet m k).isSome

/-- The key set, in insertion order. -/
def mapKeys {α : Type} (m : List (String × α)) : List String :=
  m.map (·.1)

/-! ## Data model (index.ts lines 11-19)

A mediasoup `Producer` handle is reduced to its identifier (the only field
the signaling layer reads); a `Consumer` handle keeps the fields the
handlers read or set: its id, its upstream producer id, and its paused
flag (set by `transport.consume({ paused: true })`, cleared by
`consumer.resume()`). Transports are reduced to their identifiers. -/

structure Consumer where
  id : String
  producerId : String
  paused : Bool
deriving DecidableEq, Repr

/-- `PeerState` of index.ts lines 11-16. -/
structure PeerState where
  peerId : String
  transports : List (String × Unit)
  producers : List (String × Unit)
  consumers : List (String × Consumer)
deriving DecidableEq, Repr

/-- The server's global mutable state: `wss.clients` (open sockets, one per
connection, identified here with the connection's captured `peerId`), the
Session Registry `peers` (line 18) and the global Producer Directory
`producers` (line 19). -/
structure ServerState where
  clients : List String
  peers : List (String × PeerState)
  producers : List (String × Unit)
deriving DecidableEq, Repr

/-- The mediasoup router, reduced to the one predicate the handlers
consult: `router.canConsume({ producerId, rtpCapabilities })`.
RTP capability sets are abstract strings. -/
structure Router where
  canConsume : String → String → Bool

/-- The `event` discriminator of the inbound envelope together with its
`data` payload, as destructured by the `switch` of index.ts lines 87-217.
Engine-assigned identifiers (`transport.id`, `producer.id`, `consumer.id`)
are oracle inputs carried by the event. `unknown` covers every event
string outside the six handled cases (the `default` branch). -/
inductive ClientEvent where
  | getRouterRtpCapabilities
  | createWebRtcTransport (newTransportId : String)
  | connectWebRtcTransport (transportId : String)
  | produce (transportId : String) (newProducerId : String)
  | consume (transportId : String) (producerId : String)
      (rtpCapabilities : String) (newConsumerId : String)
  | resumeConsumer (consumerId : String)
  | unknown (event : String)
deriving DecidableEq, Repr

/-- A successfully parsed inbound envelope:
`const { event, data, requestId } = JSON.parse(message.toString())`
(index.ts line 73). `requestId` is `none` when the field is absent. -/
structure Envelope where
  event : ClientEvent
  requestId : Option String
deriving DecidableEq, Repr

/-- An outbound JSON message. `event` and `data` are the serialized
`event`/`data` fields (`data` reduced to its distinguishing string);
`requestId = none` models a serialization with no `requestId` key — both
the raw `new-producer` notifications (index.ts lines 64-67, 143-146),
which never mention `requestId`, and a reply whose request had none
(`JSON.stringify` drops an `undefined` field). -/
structure OutMsg where
  event : String
  data : String
  requestId : Option String
deriving DecidableEq, Repr

/-! ## Handlers of index.ts -/

/-- `findProducerPeer` (index.ts lines 254-261): first registered peer
whose per-peer producers map has the id. -/
def findProducerPeer (peers : List (String × PeerState)) (producerId : String) :
    Option String :=
  (peers.find? (fun e => mapHas e.2.producers producerId)).map (·.1)

/-- The fresh session record built at connection time (index.ts 48-53). -/
def freshPeer (peerId : String) : PeerState :=
  ⟨peerId, [], [], []⟩

/-- The `connection` handler (index.ts lines 40-69): register the fresh
session (`peers.set`, line 55 — note: an unconditional `set`), then
backfill the new socket with one `new-producer` notification per entry of
the global directory whose owner, looked up through `findProducerPeer`
against the updated registry, is not the connecting peer. Returns the new
state and the messages sent, addressed by receiving socket. -/
def connect (s : ServerState) (peerId : String) :
    ServerState × List (String × OutMsg) :=
  let peers' := mapSet s.peers peerId (freshPeer peerId)
  let outs := s.producers.filterMap (fun pr =>
    if findProducerPeer peers' pr.1 = some peerId then none
    else some (peerId, OutMsg.mk "new-producer" pr.1 none))
  (⟨s.clients ++ [peerId], peers', s.producers⟩, outs)

/-- The `message` handler (index.ts lines 71-226). `raw = none` models a
payload `JSON.parse` rejects: the handler throws at line 73 and the catch
block's own `JSON.parse(message.toString())` (line 223) throws again, so
nothing at all is sent. For a parsed envelope, a handler `throw` reaches
the catch block, which sends `{ event: 'error', data: err.message,
requestId }` back on the same socket; every throw site precedes the
case's state mutations, so the state is returned unchanged there. -/
def handleMessage (router : Router) (s : ServerState) (peerId : String)
    (raw : Option Envelope) : ServerState × List (String × OutMsg) :=
  match raw with
  | none => (s, [])
  | some env =>
    let requestId := env.requestId
    let errorOut (msg : String) : ServerState × List (String × OutMsg) :=
      (s, [(peerId, OutMsg.mk "error" msg requestId)])
    match mapGet s.peers peerId, env.event with
    | _, ClientEvent.getRouterRtpCapabilities =>
        (s, [(peerId, OutMsg.mk "routerRtpCapabilities" "capabilities" requestId)])
    | none, _ => errorOut "Peer state not found"
    | some ps, ClientEvent.createWebRtcTransport tid =>
        let ps' := { ps with transports := mapSet ps.transports tid () }
        ({ s with peers := mapSet s.peers peerId ps' },
         [(peerId, OutMsg.mk "createWebRtcTransport" tid requestId)])
    | some ps, ClientEvent.connectWebRtcTransport tid =>
        if mapHas ps.transports tid then
          (s, [(peerId, OutMsg.mk "connectWebRtcTransport" tid requestId)])
        else
          errorOut ("Transport with id \x22" ++ tid ++ "\x22 not found")
    | some ps, ClientEvent.produce tid pid =>
        if mapHas ps.transports tid then
          let ps' := { ps with producers := mapSet ps.producers pid () }
          let s' : ServerState :=
            { s with peers := mapSet s.peers peerId ps',
                     producers := mapSet s.producers pid () }
          let broadcast := s.clients.filterMap (fun c =>
            if c = peerId then none
            else some (c, OutMsg.mk "new-producer" pid none))
          (s', broadcast ++ [(peerId, OutMsg.mk "produce" pid requestId)])
        else
          errorOut ("Transport with id \x22" ++ tid ++ "\x22 not found")
    | some ps, ClientEvent.consume tid pid caps cid =>
        if mapHas ps.transports tid then
          if mapHas s.producers pid then
            if findProducerPeer s.peers pid = some peerId then
              (s, [])
            else if router.canConsume pid caps then
              let ps' := { ps with
                consumers := mapSet ps.consumers cid (Consumer.mk cid pid true) }
              ({ s with peers := mapSet s.peers peerId ps' },
               [(peerId, OutMsg.mk "consume" cid requestId)])
            else
              errorOut ("Cannot consume producer " ++ pid)
          else
            errorOut ("Producer with id \x22" ++ pid ++ "\x22 not found")
        else
          errorOut ("Transport with id \x22" ++ tid ++ "\x22 not found")
    | some ps, ClientEvent.resumeConsumer cid =>
        match mapGet ps.consumers cid with
        | some c =>
            let ps' := { ps with
              consumers := mapSet ps.consumers cid { c with paused := false } }
            ({ s with peers := mapSet s.peers peerId ps' },
             [(peerId, OutMsg.mk "resume-consumer" cid requestId)])
        | none => errorOut ("Consumer with id \x22" ++ cid ++ "\x22 not found")
    | some _, ClientEvent.unknown _ => (s, [])

/-- The `close` handler (index.ts lines 228-246): delete every producer the
closing session owns from the global directory (`producers.delete`,
line 234), close the transports (engine side; no signaling state), delete
the registration, and drop the socket. The source reads the session object
captured at connection time; on traces without duplicate registration that
object is exactly the registry entry looked up here. Engine-side
`producer.close()` propagation (later `consumer-closed` notifications to
other peers) is asynchronous and outside the quiescent-point state. -/
def closePeer (s : ServerState) (peerId : String) : ServerState :=
  match mapGet s.peers peerId with
  | none => { s with clients := s.clients.erase peerId }
  | some ps =>
      { clients := s.clients.erase peerId,
        peers := mapDelete s.peers peerId,
        producers := ps.producers.foldl (fun acc pr => mapDelete acc pr.1) s.producers }

/-! ## Traces -/

/-- One externally triggered operation: a connection opening, a socket
message (with its connection's captured `peerId`), or a socket closing. -/
inductive Op where
  | connect (peerId : String)
  | msg (peerId : String) (raw : Option Envelope)
  | close (peerId : String)
deriving DecidableEq, Repr

/-- One operation's effect on the server state. -/
def stepState (router : Router) (s : ServerState) : Op → ServerState
  | Op.connect p => (connect s p).1
  | Op.msg p raw => (handleMessage router s p raw).1
  | Op.close p => closePeer s p

/-- The messages one operation emits. -/
def stepOuts (router : Router) (s : ServerState) : Op → List (String × OutMsg)
  | Op.connect p => (connect s p).2
  | Op.msg p raw => (handleMessage router s p raw).2
  | Op.close _ => []

/-- The empty server (module top level, before any connection). -/
def initState : ServerState := ⟨[], [], []⟩

/-- State after a whole trace of operations. -/
def execState (router : Router) (t : List Op) : ServerState :=
  t.foldl (stepState router) initState

/-- Well-formedness of one operation against the current state: a connect
presents a `peerId` not currently registered (one live connection per
peer id — the discipline §4.2 of the spec prescribes), a produce carries a
fresh engine-assigned producer id, and a close closes a registered
connection. Messages carry no precondition: post-close traffic from a
deregistered peer is well-formed and must be handled. -/
def wfOp (s : ServerState) : Op → Bool
  | Op.connect p => !(mapHas s.peers p)
  | Op.msg _ raw =>
      match raw with
      | some ⟨ClientEvent.produce _ pid, _⟩ => !(mapHas s.producers pid)
      | _ => true
  | Op.close p => mapHas s.peers p

/-- Well-formedness of a whole trace, checked left to right. -/
def wfTrace (router : Router) : ServerState → List Op → Bool
  | _, [] => true
  | s, op :: rest => wfOp s op && wfTrace router (stepState router s op) rest

/-- A router accepting every consume pairing, for concrete runs. -/
def routerTrue : Router := ⟨fun _ _ => true⟩

/-- A router rejecting every consume pairing, for concrete runs. -/
def routerFalse : Router := ⟨fun _ _ => false⟩


/-- The invariant every state reachable by a well-formed trace satisfies:
map keys are duplicate-free, the Producer Directory and the union of the
sessions' producer maps agree (spec §3, Producer Directory Entry
invariant), and each producer is owned by at most one registered
session. -/
structure Inv (s : ServerState) : Prop where
  dirNodup : (mapKeys s.producers).Nodup
  regNodup : (mapKeys s.peers).Nodup
  ownNodup : ∀ e ∈ s.peers, (mapKeys e.2.producers).Nodup
  agree : ∀ pid, mapHas s.producers pid = true ↔
    ∃ e ∈ s.peers, mapHas e.2.producers pid = true
  unique : ∀ pid e1 e2, e1 ∈ s.peers → e2 ∈ s.peers →
    mapHas e1.2.producers pid = true → mapHas e2.2.producers pid = true → e1 = e2

/-! ## The embedded server variant

The second document of `server/src/worker.ts` carries an older, embedded
variant of the server. Its `produce` case differs from index.ts: after
broadcasting to the other clients it also walks the *global* directory and
sends the producing client one `new-producer` per other entry — with no
ownership check. Its envelope has no request-id field at all, so every
outbound message is modelled with `requestId = none`. The variant's
`PeerState` lacks the `peerId` field; the index.ts record is reused here,
the extra field being unread. -/

/-- The `produce` case of the embedded server variant (worker.ts second
document, lines 126-156): attach and index the producer, broadcast
`new-producer` to every other client (lines 140-144), send the sender one
`new-producer` per other entry of the directory as updated — the "also
inform the current client about existing producers" loop (lines 146-151)
— then confirm with `produced` (line 154). -/
def produceHandlerW (s : ServerState) (q tid pid : String) :
    ServerState × List (String × OutMsg) :=
  match mapGet s.peers q with
  | none => (s, [(q, OutMsg.mk "error" "Peer state not found" none)])
  | some qs =>
    if mapHas qs.transports tid then
      let qs' := { qs with producers := mapSet qs.producers pid () }
      let producers' := mapSet s.producers pid ()
      let s' : ServerState :=
        { s with peers := mapSet s.peers q qs', producers := producers' }
      let toOthers := s.clients.filterMap (fun c =>
        if c = q then none else some (c, OutMsg.mk "new-producer" pid none))
      let toSender := producers'.filterMap (fun pr =>
        if pr.1 = pid then none
        else some (q, OutMsg.mk "new-producer" pr.1 none))
      (s', toOthers ++ toSender ++ [(q, OutMsg.mk "produced" pid none)])
    else
      (s, [(q, OutMsg.mk "error"
        ("Transport with id \x22" ++ tid ++ "\x22 not found") none)])

/-! ## Envelope field names

The correlation-field shape of the wire envelopes, read off the literal
object expressions in the sources. -/

/-- The JSON keys of the reply envelope built by the primary server:
index.ts line 82, `const response = { event, data, requestId }`. -/
def serverReplyFields : List String := ["event", "data", "requestId"]

/-- The JSON keys of the request envelope sent by the first client variant
(`src/app/stream/page.tsx`, first document: `{ event, data, requestId }`),
whose `onmessage` also destructures and matches on `requestId`. -/
def clientRequestFieldsV1 : List String := ["event", "data", "requestId"]

/-- The JSON keys of the request envelope sent by the second client
variant (`page.tsx`, second document: `{ event, data, id: requestId }`),
whose `onmessage` destructures `{ event, data, id }` and matches on
`id`. -/
def clientRequestFieldsV2 : List String := ["event", "data", "id"]

/-! ## The Egress Bridge, modelled from the spec -/

/-- Modelled from the spec: the Egress Bridge of §4.5 is missing from the
sources — only its `plainTransport` configuration block (second config
variant, `config.mediasoup.plainTransport`) witnesses the egress path. The
state follows §3's Egress Session record: a producer count mirror of the
directory, at most one live session (holding the transcoder process,
numbered by spawn generation), the `pipedProducerIds` idempotency set, and
cycle counters for the provisioning/teardown events of §4.5. -/
structure EgressState where
  count : Nat
  session : Option Nat
  piped : List String
  nextGen : Nat
  provisionCount : Nat
  teardownCount : Nat
deriving DecidableEq, Repr

/-- A Producer Directory lifecycle event the bridge observes (§4.4:
`add` fans out and feeds the bridge, `remove` is the hook by which the
bridge detects "count reached zero"). -/
inductive DirEvent where
  | add (pid : String)
  | remove (pid : String)
deriving DecidableEq, Repr

/-- Modelled from the spec: the bridge before any producer exists —
`Idle`, nothing piped, no process ever spawned. -/
def egressInit : EgressState := ⟨0, none, [], 0, 0, 0⟩

/-- Modelled from the spec (§4.5): on a 0→1 `add`, provision — spawn a
fresh transcoder process (a new generation number) and pipe every
currently-known producer, which at that transition is exactly the
triggering one; on an `add` while `Active`, pipe the producer unless the
`pipedProducerIds` set already holds it; on the `remove` that reaches
count 0, terminate the process, clear the piped set, and return to
`Idle`. -/
def egressStep (b : EgressState) : DirEvent → EgressState
  | DirEvent.add pid =>
      let cnt := b.count + 1
      if cnt = 1 then
        { count := cnt, session := some b.nextGen, piped := [pid],
          nextGen := b.nextGen + 1, provisionCount := b.provisionCount + 1,
          teardownCount := b.teardownCount }
      else if b.piped.contains pid then
        { b with count := cnt }
      else
        { b with count := cnt, piped := b.piped ++ [pid] }
  | DirEvent.remove _ =>
      let cnt := b.count - 1
      if cnt = 0 then
        { count := cnt, session := none, piped := [],
          nextGen := b.nextGen, provisionCount := b.provisionCount,
          teardownCount := b.teardownCount + 1 }
      else
        { b with count := cnt }

/-- The bridge state after a whole directory event sequence. -/
def egressRun (evs : List DirEvent) : EgressState :=
  evs.foldl egressStep egressInit

/-- Well-formedness of a directory event sequence against the running
count: a `remove` only fires for a producer that exists, so never at
count 0. -/
def egressWfFrom (b : EgressState) : List DirEvent → Bool
  | [] => true
  | ev :: rest =>
      (match ev with
       | DirEvent.add _ => true
       | DirEvent.remove _ => decide (0 < b.count)) &&
        egressWfFrom (egressStep b ev) rest

/-- The number of 0→1 transitions a directory event sequence performs,
starting from count `c`. -/
def riseCount : Nat → List DirEvent → Nat
  | _, [] => 0
  | c, DirEvent.add _ :: rest => (if c = 0 then 1 else 0) + riseCount (c + 1) rest
  | c, DirEvent.remove _ :: rest => riseCount (c - 1) rest

/-- The number of transitions to count 0 a directory event sequence
performs, starting from count `c`. -/
def dropToZeroCount : Nat → List DirEvent → Nat
  | _, [] => 0
  | c, DirEvent.add _ :: rest => dropToZeroCount (c + 1) rest
  | c, DirEvent.remove _ :: rest =>
      (if c = 1 then 1 else 0) + dropToZeroCount (c - 1) rest

/-- The bridge's own inductive invariant: a session is alive exactly while
producers exist, the live session is always the most recently spawned
process, spawn generations count provisioning cycles, and nothing is piped
twice. -/
def EgressInv (b : EgressState) : Prop :=
  (b.session.isSome ↔ 0 < b.count) ∧
  (∀ g, b.session = some g → g + 1 = b.nextGen) ∧
  b.nextGen = b.provisionCount ∧
  b.piped.Nodup

/-! ## Concrete runs -/

/-- Peer A connects, creates a transport, produces one track. -/
def tProduceA : List Op :=
  [Op.connect "A",
   Op.msg "A" (some ⟨ClientEvent.createWebRtcTransport "t1", some "r1"⟩),
   Op.msg "A" (some ⟨ClientEvent.produce "t1" "p1", some "r2"⟩)]

/-- After `tProduceA`: B connects, creates a transport, consumes A's
producer, and resumes the consumer. -/
def tConsumeB : List Op :=
  tProduceA ++
  [Op.connect "B",
   Op.msg "B" (some ⟨ClientEvent.createWebRtcTransport "t2", some "r3"⟩),
   Op.msg "B" (some ⟨ClientEvent.consume "t2" "p1" "caps" "c1", some "r4"⟩),
   Op.msg "B" (some ⟨ClientEvent.resumeConsumer "c1", some "r5"⟩)]

/-- A server state of the embedded variant: one client A owning transport
t1 and producer p1, the directory holding p1. -/
def sW : ServerState :=
  ⟨["A"], [("A", ⟨"A", [("t1", ())], [("p1", ())], []⟩)], [("p1", ())]⟩

/-- Some registered session holds an unpaused consumer under `cid`. -/
def hasUnpausedConsumer (s : ServerState) (cid : String) : Bool :=
  s.peers.any (fun e =>
    match mapGet e.2.consumers cid with
    | some c => !c.paused
    | none => false)


/-! ## Association-list lemmas -/

theorem mapGet_nil {α : Type} (k : String) :
    mapGet ([] : List (String × α)) k = none := rfl

theorem mapGet_cons {α : Type} (e : String × α) (rest : List (String × α))
    (k : String) :
    mapGet (e :: rest) k = if e.1 = k then some e.2 else mapGet rest k := rfl

theorem mapSet_nil {α : Type} (k : String) (v : α) :
    mapSet ([] : List (String × α)) k v = [(k, v)] := rfl

theorem mapSet_cons {α : Type} (e : String × α) (rest : List (String × α))
    (k : String) (v : α) :
    mapSet (e :: rest) k v
      = if e.1 = k then (k, v) :: rest else e :: mapSet rest k v := rfl

theorem mapDelete_nil {α : Type} (k : String) :
    mapDelete ([] : List (String × α)) k = [] := rfl

theorem mapDelete_cons {α : Type} (e : String × α) (rest : List (String × α))
    (k : String) :
    mapDelete (e :: rest) k
      = if e.1 = k then mapDelete rest k else e :: mapDelete rest k := rfl

theorem mapKeys_nil {α : Type} : mapKeys ([] : List (String × α)) = [] := rfl

theorem mapKeys_cons {α : Type} (e : String × α) (rest : List (String × α)) :
    mapKeys (e :: rest) = e.1 :: mapKeys rest := rfl

theorem mapGet_set_self {α : Type} (m : List (String × α)) (k : String) (v : α) :
    mapGet (mapSet m k v) k = some v := by
  induction m with
  | nil => simp [mapSet_nil, mapGet_cons]
  | cons e rest ih =>
      rw [mapSet_cons]
      by_cases he : e.1 = k
      · rw [if_pos he, mapGet_cons, if_pos rfl]
      · rw [if_neg he, mapGet_cons, if_neg he, ih]

theorem mapGet_set_ne {α : Type} (m : List (String × α)) (k k' : String) (v : α)
    (h : k' ≠ k) : mapGet (mapSet m k v) k' = mapGet m k' := by
  induction m with
  | nil =>
      rw [mapSet_nil, mapGet_cons, mapGet_nil, if_neg (fun hh : k = k' => h hh.symm)]
  | cons e rest ih =>
      rw [mapSet_cons]
      by_cases he : e.1 = k
      · rw [if_pos he, mapGet_cons, mapGet_cons,
          if_neg (fun hh : k = k' => h hh.symm),
          if_neg (fun hh : e.1 = k' => h (he.symm.trans hh).symm)]
      · rw [if_neg he, mapGet_cons, mapGet_cons, ih]

theorem mapGet_delete {α : Type} (m : List (String × α)) (k k' : String) :
    mapGet (mapDelete m k) k' = if k' = k then none else mapGet m k' := by
  induction m with
  | nil =>
      rw [mapDelete_nil, mapGet_nil]
      by_cases hk : k' = k
      · rw [if_pos hk]
      · rw [if_neg hk]
  | cons e rest ih =>
      rw [mapDelete_cons]
      by_cases he : e.1 = k
      · rw [if_pos he, ih]
        by_cases hk : k' = k
        · rw [if_pos hk, if_pos hk]
        · rw [if_neg hk, if_neg hk, mapGet_cons,
            if_neg (fun hh : e.1 = k' => hk (hh.symm.trans he))]
      · rw [if_neg he, mapGet_cons]
        by_cases hk : k' = k
        · rw [if_neg (fun hh : e.1 = k' => he (hh.trans hk)), ih, if_pos hk,
            if_pos hk]
        · rw [ih, if_neg hk, mapGet_cons, if_neg hk]

theorem mapHas_iff_mem_keys {α : Type} {m : List (String × α)} {k : String} :
    mapHas m k = true ↔ k ∈ mapKeys m := by
  induction m with
  | nil => simp [mapHas, mapGet_nil, mapKeys_nil]
  | cons e rest ih =>
      rw [mapKeys_cons, List.mem_cons]
      simp only [mapHas, mapGet_cons]
      by_cases he : e.1 = k
      · simp [he]
      · rw [if_neg he]
        rw [show ((mapGet rest k).isSome = true ↔ k ∈ mapKeys rest) from ih]
        constructor
        · exact Or.inr
        · rintro (h | h)
          · exact absurd h.symm he
          · exact h

theorem mem_keys_mapSet {α : Type} {m : List (String × α)} {k k' : String}
    {v : α} : k' ∈ mapKeys (mapSet m k v) ↔ k' ∈ mapKeys m ∨ k' = k := by
  induction m with
  | nil => simp [mapSet_nil, mapKeys_cons, mapKeys_nil, eq_comm]
  | cons e rest ih =>
      rw [mapSet_cons]
      by_cases he : e.1 = k
      · rw [if_pos he, mapKeys_cons, mapKeys_cons, List.mem_cons, List.mem_cons]
        constructor
        · rintro (h | h)
          · exact Or.inr h
          · exact Or.inl (Or.inr h)
        · rintro ((h | h) | h)
          · exact Or.inl (h.trans he)
          · exact Or.inr h
          · exact Or.inl h
      · rw [if_neg he, mapKeys_cons, mapKeys_cons, List.mem_cons, List.mem_cons, ih]
        tauto

theorem nodup_keys_mapSet {α : Type} {m : List (String × α)} {k : String} {v : α}
    (nd : (mapKeys m).Nodup) : (mapKeys (mapSet m k v)).Nodup := by
  induction m with
  | nil => simp [mapSet_nil, mapKeys_cons, mapKeys_nil]
  | cons e rest ih =>
      rw [mapKeys_cons, List.nodup_cons] at nd
      rw [mapSet_cons]
      by_cases he : e.1 = k
      · rw [if_pos he, mapKeys_cons, List.nodup_cons]
        exact ⟨he ▸ nd.1, nd.2⟩
      · rw [if_neg he, mapKeys_cons, List.nodup_cons]
        refine ⟨fun hmem => ?_, ih nd.2⟩
        rcases mem_keys_mapSet.1 hmem with h | h
        · exact nd.1 h
        · exact he h

theorem mem_keys_mapDelete {α : Type} {m : List (String × α)} {k k' : String} :
    k' ∈ mapKeys (mapDelete m k) ↔ k' ∈ mapKeys m ∧ k' ≠ k := by
  induction m with
  | nil => simp [mapDelete_nil, mapKeys_nil]
  | cons e rest ih =>
      rw [mapDelete_cons]
      by_cases he : e.1 = k
      · rw [if_pos he, ih, mapKeys_cons, List.mem_cons]
        constructor
        · rintro ⟨h1, h2⟩
          exact ⟨Or.inr h1, h2⟩
        · rintro ⟨h1 | h1, h2⟩
          · exact absurd (h1.trans he) h2
          · exact ⟨h1, h2⟩
      · rw [if_neg he, mapKeys_cons, mapKeys_cons, List.mem_cons, List.mem_cons, ih]
        constructor
        · rintro (h | ⟨h1, h2⟩)
          · exact ⟨Or.inl h, fun hh => he ((h.symm.trans hh).symm ▸ rfl)⟩
          · exact ⟨Or.inr h1, h2⟩
        · rintro ⟨h1 | h1, h2⟩
          · exact Or.inl h1
          · exact Or.inr ⟨h1, h2⟩

theorem nodup_keys_mapDelete {α : Type} {m : List (String × α)} {k : String}
    (nd : (mapKeys m).Nodup) : (mapKeys (mapDelete m k)).Nodup := by
  induction m with
  | nil => simp [mapDelete_nil, mapKeys_nil]
  | cons e rest ih =>
      rw [mapKeys_cons, List.nodup_cons] at nd
      rw [mapDelete_cons]
      by_cases he : e.1 = k
      · rw [if_pos he]
        exact ih nd.2
      · rw [if_neg he, mapKeys_cons, List.nodup_cons]
        exact ⟨fun hmem => nd.1 (mem_keys_mapDelete.1 hmem).1, ih nd.2⟩

theorem mem_mapSet_elim {α : Type} {m : List (String × α)} {k : String} {v : α}
    {x : String × α} (h : x ∈ mapSet m k v) : x = (k, v) ∨ x ∈ m := by
  induction m with
  | nil => simpa [mapSet_nil] using h
  | cons e rest ih =>
      rw [mapSet_cons] at h
      by_cases he : e.1 = k
      · rw [if_pos he, List.mem_cons] at h
        rcases h with h | h
        · exact Or.inl h
        · exact Or.inr (List.mem_cons_of_mem _ h)
      · rw [if_neg he, List.mem_cons] at h
        rcases h with h | h
        · exact Or.inr (h ▸ List.mem_cons_self _ _)
        · rcases ih h with h' | h'
          · exact Or.inl h'
          · exact Or.inr (List.mem_cons_of_mem _ h')

theorem mem_mapSet_of_mem {α : Type} {m : List (String × α)} {k : String} {v : α}
    {x : String × α} (hx : x ∈ m) (hne : x.1 ≠ k) : x ∈ mapSet m k v := by
  induction m with
  | nil => simp at hx
  | cons e rest ih =>
      rw [mapSet_cons]
      rcases List.mem_cons.1 hx with h | h
      · have he : ¬ e.1 = k := h ▸ hne
        rw [if_neg he, List.mem_cons]
        exact Or.inl h
      · by_cases he : e.1 = k
        · rw [if_pos he, List.mem_cons]
          exact Or.inr h
        · rw [if_neg he, List.mem_cons]
          exact Or.inr (ih h)

theorem self_mem_mapSet {α : Type} (m : List (String × α)) (k : String) (v : α) :
    (k, v) ∈ mapSet m k v := by
  induction m with
  | nil => simp [mapSet_nil]
  | cons e rest ih =>
      rw [mapSet_cons]
      by_cases he : e.1 = k
      · rw [if_pos he]
        exact List.mem_cons_self _ _
      · rw [if_neg he, List.mem_cons]
        exact Or.inr ih

theorem mem_mapDelete {α : Type} {m : List (String × α)} {k : String}
    {x : String × α} : x ∈ mapDelete m k ↔ x ∈ m ∧ x.1 ≠ k := by
  induction m with
  | nil => simp [mapDelete_nil]
  | cons e rest ih =>
      rw [mapDelete_cons]
      by_cases he : e.1 = k
      · rw [if_pos he, ih, List.mem_cons]
        constructor
        · rintro ⟨h1, h2⟩
          exact ⟨Or.inr h1, h2⟩
        · rintro ⟨h1 | h1, h2⟩
          · exact absurd (by rw [h1]; exact he) h2
          · exact ⟨h1, h2⟩
      · rw [if_neg he, List.mem_cons, ih, List.mem_cons]
        constructor
        · rintro (h | ⟨h1, h2⟩)
          · exact ⟨Or.inl h, by rw [h]; exact he⟩
          · exact ⟨Or.inr h1, h2⟩
        · rintro ⟨h1 | h1, h2⟩
          · exact Or.inl h1
          · exact Or.inr ⟨h1, h2⟩

theorem mapGet_eq_some_mem {α : Type} {m : List (String × α)} {k : String} {v : α}
    (h : mapGet m k = some v) : (k, v) ∈ m := by
  induction m with
  | nil => simp [mapGet_nil] at h
  | cons e rest ih =>
      rw [mapGet_cons] at h
      by_cases he : e.1 = k
      · rw [if_pos he, Option.some.injEq] at h
        have : (k, v) = e := by
          rw [← he, ← h]
        exact this ▸ List.mem_cons_self _ _
      · rw [if_neg he] at h
        exact List.mem_cons_of_mem _ (ih h)

theorem mapGet_of_mem_nodup {α : Type} {m : List (String × α)} {k : String} {v : α}
    (nd : (mapKeys m).Nodup) (h : (k, v) ∈ m) : mapGet m k = some v := by
  induction m with
  | nil => simp at h
  | cons e rest ih =>
      rw [mapKeys_cons, List.nodup_cons] at nd
      rw [mapGet_cons]
      rcases List.mem_cons.1 h with h1 | h1
      · rw [if_pos (congrArg Prod.fst h1.symm), ← h1]
      · have hk : k ∈ mapKeys rest := List.mem_map.2 ⟨(k, v), h1, rfl⟩
        rw [if_neg (fun hh : e.1 = k => nd.1 (hh ▸ hk))]
        exact ih nd.2 h1

theorem mapDelete_of_not_has {α : Type} {m : List (String × α)} {k : String}
    (h : mapHas m k = false) : mapDelete m k = m := by
  induction m with
  | nil => rfl
  | cons e rest ih =>
      simp only [mapHas, mapGet_cons] at h
      by_cases he : e.1 = k
      · rw [if_pos he] at h
        simp at h
      · rw [if_neg he] at h
        rw [mapDelete_cons, if_neg he, ih h]

theorem length_mapDelete_of_has {α : Type} {m : List (String × α)} {k : String}
    (nd : (mapKeys m).Nodup) (h : mapHas m k = true) :
    (mapDelete m k).length + 1 = m.length := by
  induction m with
  | nil => simp [mapHas, mapGet_nil] at h
  | cons e rest ih =>
      rw [mapKeys_cons, List.nodup_cons] at nd
      rw [mapDelete_cons]
      by_cases he : e.1 = k
      · have hk : mapHas rest k = false := by
          rcases hb : mapHas rest k with _ | _
          · rfl
          · exact absurd (he ▸ mapHas_iff_mem_keys.1 hb) nd.1
        rw [if_pos he, mapDelete_of_not_has hk, List.length_cons]
      · have h' : mapHas rest k = true := by
          simpa [mapHas, mapGet_cons, he] using h
        rw [if_neg he, List.length_cons, List.length_cons, ← ih nd.2 h']


theorem mapHas_delete {α : Type} {m : List (String × α)} {k k' : String} :
    mapHas (mapDelete m k) k' = true ↔ mapHas m k' = true ∧ k' ≠ k := by
  simp only [mapHas, mapGet_delete]
  by_cases hk : k' = k
  · simp [hk]
  · simp [hk]

theorem mapHas_set {α : Type} {m : List (String × α)} {k k' : String} {v : α} :
    mapHas (mapSet m k v) k' = true ↔ k' = k ∨ mapHas m k' = true := by
  rw [mapHas_iff_mem_keys, mem_keys_mapSet, mapHas_iff_mem_keys]
  tauto

theorem mapHas_foldl_delete {α : Type} (ks : List (String × Unit))
    (acc : List (String × α)) (pid : String) :
    mapHas (ks.foldl (fun a pr => mapDelete a pr.1) acc) pid = true
      ↔ mapHas acc pid = true ∧ pid ∉ mapKeys ks := by
  induction ks generalizing acc with
  | nil => simp [mapKeys_nil]
  | cons e rest ih =>
      rw [List.foldl_cons, ih, mapKeys_cons, List.mem_cons, mapHas_delete]
      constructor
      · rintro ⟨⟨h1, h2⟩, h3⟩
        exact ⟨h1, fun hc => hc.elim h2 h3⟩
      · rintro ⟨h1, h2⟩
        exact ⟨⟨h1, fun hc => h2 (Or.inl hc)⟩, fun hc => h2 (Or.inr hc)⟩

theorem nodup_foldl_delete {α : Type} (ks : List (String × Unit))
    (acc : List (String × α)) (nd : (mapKeys acc).Nodup) :
    (mapKeys (ks.foldl (fun a pr => mapDelete a pr.1) acc)).Nodup := by
  induction ks generalizing acc with
  | nil => exact nd
  | cons e rest ih =>
      rw [List.foldl_cons]
      exact ih _ (nodup_keys_mapDelete nd)

theorem length_foldl_delete {α : Type} (ks : List (String × Unit))
    (acc : List (String × α)) (ndAcc : (mapKeys acc).Nodup)
    (ndKs : (mapKeys ks).Nodup)
    (hsub : ∀ x ∈ mapKeys ks, mapHas acc x = true) :
    (ks.foldl (fun a pr => mapDelete a pr.1) acc).length + ks.length = acc.length := by
  induction ks generalizing acc with
  | nil => simp
  | cons e rest ih =>
      rw [mapKeys_cons, List.nodup_cons] at ndKs
      rw [List.foldl_cons]
      have h1 : mapHas acc e.1 = true :=
        hsub e.1 (by rw [mapKeys_cons]; exact List.mem_cons_self _ _)
      have h2 : (mapDelete acc e.1).length + 1 = acc.length :=
        length_mapDelete_of_has ndAcc h1
      have h3 : ∀ x ∈ mapKeys rest, mapHas (mapDelete acc e.1) x = true := by
        intro x hx
        exact mapHas_delete.2
          ⟨hsub x (by rw [mapKeys_cons]; exact List.mem_cons_of_mem _ hx),
           fun hc => ndKs.1 (hc ▸ hx)⟩
      have h4 := ih (mapDelete acc e.1) (nodup_keys_mapDelete ndAcc) ndKs.2 h3
      rw [List.length_cons]
      omega

/-! ## Step characterizations

Closed-form equations for the interesting branches of the handlers, read
off the `switch` cases of index.ts. -/

/-- A successful `consume` (lines 155-202): transport owned, producer in
the directory, not the requester's own, capability check passes — one
consumer, created with `paused: true`, is attached, and the reply is
sent. -/
theorem handleMessage_consume_ok (router : Router) (s : ServerState)
    (q tid pid caps cid : String) (rid : Option String) (qs : PeerState)
    (hget : mapGet s.peers q = some qs) (ht : mapHas qs.transports tid = true)
    (hpd : mapHas s.producers pid = true)
    (hown : findProducerPeer s.peers pid ≠ some q)
    (hcan : router.canConsume pid caps = true) :
    handleMessage router s q (some ⟨ClientEvent.consume tid pid caps cid, rid⟩)
      = ({ s with peers := mapSet s.peers q { qs with consumers := mapSet qs.consumers cid (Consumer.mk cid pid true) } },
         [(q, OutMsg.mk "consume" cid rid)]) := by
  simp [handleMessage, hget, ht, hpd, hown, hcan]

/-- The own-producer guard (lines 167-172): the handler returns with no
reply and no state change. -/
theorem handleMessage_consume_own (router : Router) (s : ServerState)
    (q tid pid caps cid : String) (rid : Option String) (qs : PeerState)
    (hget : mapGet s.peers q = some qs) (ht : mapHas qs.transports tid = true)
    (hpd : mapHas s.producers pid = true)
    (hown : findProducerPeer s.peers pid = some q) :
    handleMessage router s q (some ⟨ClientEvent.consume tid pid caps cid, rid⟩)
      = (s, []) := by
  simp [handleMessage, hget, ht, hpd, hown]

/-- The capability-mismatch throw (lines 174-176): an error reply tagged
with the request id, no state change. -/
theorem handleMessage_consume_mismatch (router : Router) (s : ServerState)
    (q tid pid caps cid : String) (rid : Option String) (qs : PeerState)
    (hget : mapGet s.peers q = some qs) (ht : mapHas qs.transports tid = true)
    (hpd : mapHas s.producers pid = true)
    (hown : findProducerPeer s.peers pid ≠ some q)
    (hcan : router.canConsume pid caps = false) :
    handleMessage router s q (some ⟨ClientEvent.consume tid pid caps cid, rid⟩)
      = (s, [(q, OutMsg.mk "error" ("Cannot consume producer " ++ pid) rid)]) := by
  simp [handleMessage, hget, ht, hpd, hown, hcan]

/-- A successful `produce` (lines 125-153): the producer is attached to
the session and the directory, a `new-producer` notification goes to every
other open socket, then the reply goes to the sender. -/
theorem handleMessage_produce_ok (router : Router) (s : ServerState)
    (q tid pid : String) (rid : Option String) (qs : PeerState)
    (hget : mapGet s.peers q = some qs) (ht : mapHas qs.transports tid = true) :
    handleMessage router s q (some ⟨ClientEvent.produce tid pid, rid⟩)
      = ({ s with peers := mapSet s.peers q { qs with producers := mapSet qs.producers pid () }, producers := mapSet s.producers pid () },
         s.clients.filterMap (fun c => if c = q then none else some (c, OutMsg.mk "new-producer" pid none))
           ++ [(q, OutMsg.mk "produce" pid rid)]) := by
  simp [handleMessage, hget, ht]

/-- A successful `resume-consumer` (lines 204-212): the consumer's paused
flag is cleared and the reply is sent. -/
theorem handleMessage_resume_ok (router : Router) (s : ServerState)
    (q cid : String) (rid : Option String) (qs : PeerState) (c : Consumer)
    (hget : mapGet s.peers q = some qs)
    (hc : mapGet qs.consumers cid = some c) :
    handleMessage router s q (some ⟨ClientEvent.resumeConsumer cid, rid⟩)
      = ({ s with peers := mapSet s.peers q { qs with consumers := mapSet qs.consumers cid { c with paused := false } } },
         [(q, OutMsg.mk "resume-consumer" cid rid)]) := by
  simp [handleMessage, hget, hc]

/-- An unknown event from a registered peer (default branch, lines
214-216) is logged and ignored: no reply of any kind. -/
theorem handleMessage_unknown (router : Router) (s : ServerState)
    (q e : String) (rid : Option String) (qs : PeerState)
    (hget : mapGet s.peers q = some qs) :
    handleMessage router s q (some ⟨ClientEvent.unknown e, rid⟩) = (s, []) := by
  simp [handleMessage, hget]

/-- A payload `JSON.parse` rejects: the catch block re-parses it, throws
again, and nothing is sent. -/
theorem handleMessage_malformed (router : Router) (s : ServerState)
    (q : String) : handleMessage router s q none = (s, []) := rfl

/-! ## The reachable-state invariant

The spec's §8 quiescent-point properties are proved through an inductive
invariant over the server state. -/

theorem inv_init : Inv initState := by
  refine ⟨?_, ?_, ?_, ?_, ?_⟩
  · simp [initState, mapKeys_nil]
  · simp [initState, mapKeys_nil]
  · intro e he
    simp [initState] at he
  · intro pid
    simp [initState, mapHas, mapGet_nil]
  · intro pid e1 e2 h1 h2
    simp [initState] at h1

theorem mem_entry_get {α : Type} {m : List (String × α)} {e : String × α}
    (nd : (mapKeys m).Nodup) (he : e ∈ m) : mapGet m e.1 = some e.2 :=
  mapGet_of_mem_nodup nd (by rw [Prod.mk.eta] at *; exact he)

/-- Updating one registered session without touching its producers map
preserves the invariant (covers `createWebRtcTransport`, `consume`, and
`resume-consumer`). -/
theorem inv_update_session {s : ServerState} {q : String} {qs qs' : PeerState}
    (hq : mapGet s.peers q = some qs) (hprod : qs'.producers = qs.producers)
    (hinv : Inv s) : Inv { s with peers := mapSet s.peers q qs' } := by
  have hmem : (q, qs) ∈ s.peers := mapGet_eq_some_mem hq
  have hnd' : (mapKeys (mapSet s.peers q qs')).Nodup := nodup_keys_mapSet hinv.regNodup
  have hentry : ∀ e, e ∈ s.peers → e.1 = q → e.2 = qs := by
    intro e he hk
    have h1 := mem_entry_get hinv.regNodup he
    rw [hk, hq] at h1
    exact (Option.some.inj h1).symm
  refine ⟨hinv.dirNodup, hnd', ?_, ?_, ?_⟩
  · intro e he
    rcases mem_mapSet_elim he with h | h
    · rw [h]
      simpa [hprod] using hinv.ownNodup (q, qs) hmem
    · exact hinv.ownNodup e h
  · intro pid
    rw [hinv.agree pid]
    constructor
    · rintro ⟨e, he, howns⟩
      by_cases hk : e.1 = q
      · refine ⟨(q, qs'), self_mem_mapSet _ _ _, ?_⟩
        show mapHas qs'.producers pid = true
        rw [hprod, ← hentry e he hk]
        exact howns
      · exact ⟨e, mem_mapSet_of_mem he hk, howns⟩
    · rintro ⟨e, he, howns⟩
      rcases mem_mapSet_elim he with h | h
      · refine ⟨(q, qs), hmem, ?_⟩
        rw [h] at howns
        show mapHas qs.producers pid = true
        rw [← hprod]
        exact howns
      · exact ⟨e, h, howns⟩
  · intro pid e1 e2 h1 h2 o1 o2
    have toOld : ∀ e, e ∈ mapSet s.peers q qs' → mapHas e.2.producers pid = true →
        ∃ f, f ∈ s.peers ∧ mapHas f.2.producers pid = true ∧
          (e = (q, qs') ∧ f = (q, qs) ∨ e = f) := by
      intro e he howns
      rcases mem_mapSet_elim he with h | h
      · refine ⟨(q, qs), hmem, ?_, Or.inl ⟨h, rfl⟩⟩
        rw [h] at howns
        show mapHas qs.producers pid = true
        rw [← hprod]
        exact howns
      · exact ⟨e, h, howns, Or.inr rfl⟩
    obtain ⟨f1, hf1, of1, hc1⟩ := toOld e1 h1 o1
    obtain ⟨f2, hf2, of2, hc2⟩ := toOld e2 h2 o2
    have hf12 : f1 = f2 := hinv.unique pid f1 f2 hf1 hf2 of1 of2
    have sameVal : ∀ e, e ∈ mapSet s.peers q qs' → e.1 = q → e.2 = qs' := by
      intro e he hk
      have h1 := mem_entry_get hnd' he
      rw [hk, mapGet_set_self] at h1
      exact (Option.some.inj h1).symm
    rcases hc1 with ⟨he1, hf1q⟩ | he1 <;> rcases hc2 with ⟨he2, hf2q⟩ | he2
    · rw [he1, he2]
    · have h2q : e2.1 = q := by rw [he2, ← hf12, hf1q]
      have h2v : e2.2 = qs' := sameVal e2 h2 h2q
      rw [he1]
      exact (Prod.ext_iff.2 ⟨h2q, h2v⟩).symm
    · have h1q : e1.1 = q := by rw [he1, hf12, hf2q]
      have h1v : e1.2 = qs' := sameVal e1 h1 h1q
      rw [he2]
      exact Prod.ext_iff.2 ⟨h1q, h1v⟩
    · rw [he1, he2, hf12]


theorem mapHas_set_self {α : Type} (m : List (String × α)) (k : String) (v : α) :
    mapHas (mapSet m k v) k = true := by
  simp [mapHas, mapGet_set_self]

theorem entry_snd_eq {α : Type} {m : List (String × α)} {e : String × α}
    {k : String} {v : α} (nd : (mapKeys m).Nodup) (he : e ∈ m) (hk : e.1 = k)
    (hget : mapGet m k = some v) : e.2 = v := by
  have h1 := mem_entry_get nd he
  rw [hk, hget] at h1
  exact (Option.some.inj h1).symm

/-- Registering a peer id not currently registered preserves the
invariant. -/
theorem inv_connect {s : ServerState} {p : String}
    (hp : mapHas s.peers p = false) (hinv : Inv s) : Inv (connect s p).1 := by
  have hfreshOwn : ∀ pid, mapHas (freshPeer p).producers pid = false := by
    intro pid
    rfl
  refine ⟨hinv.dirNodup, nodup_keys_mapSet hinv.regNodup, ?_, ?_, ?_⟩
  · intro e he
    rcases mem_mapSet_elim he with h | h
    · rw [h]
      simp [freshPeer, mapKeys_nil]
    · exact hinv.ownNodup e h
  · intro pid
    show mapHas s.producers pid = true ↔
      ∃ e ∈ mapSet s.peers p (freshPeer p), mapHas e.2.producers pid = true
    rw [hinv.agree pid]
    constructor
    · rintro ⟨e, he, howns⟩
      have hk : e.1 ≠ p := by
        intro hc
        have hmemk : e.1 ∈ mapKeys s.peers := List.mem_map.2 ⟨e, he, rfl⟩
        rw [hc] at hmemk
        have hhas := mapHas_iff_mem_keys.2 hmemk
        rw [hp] at hhas
        simp at hhas
      exact ⟨e, mem_mapSet_of_mem he hk, howns⟩
    · rintro ⟨e, he, howns⟩
      rcases mem_mapSet_elim he with h | h
      · rw [h] at howns
        exact absurd howns (by rw [hfreshOwn pid]; simp)
      · exact ⟨e, h, howns⟩
  · intro pid e1 e2 h1 h2 o1 o2
    have old : ∀ e, e ∈ mapSet s.peers p (freshPeer p) →
        mapHas e.2.producers pid = true → e ∈ s.peers := by
      intro e he howns
      rcases mem_mapSet_elim he with h | h
      · rw [h] at howns
        exact absurd howns (by rw [hfreshOwn pid]; simp)
      · exact h
    exact hinv.unique pid e1 e2 (old e1 h1 o1) (old e2 h2 o2) o1 o2

/-- A successful `produce` (registered session, owned transport, fresh
engine-assigned producer id) preserves the invariant. -/
theorem inv_produce {s : ServerState} {q pid : String} {qs : PeerState}
    (hq : mapGet s.peers q = some qs)
    (hfresh : mapHas s.producers pid = false) (hinv : Inv s) :
    Inv { s with
          peers := mapSet s.peers q
            { qs with producers := mapSet qs.producers pid () },
          producers := mapSet s.producers pid () } := by
  set qs' : PeerState := { qs with producers := mapSet qs.producers pid () } with hqs'
  have hmem : (q, qs) ∈ s.peers := mapGet_eq_some_mem hq
  have hnd' : (mapKeys (mapSet s.peers q qs')).Nodup := nodup_keys_mapSet hinv.regNodup
  have hqsNotOwn : mapHas qs.producers pid = false := by
    rcases hb : mapHas qs.producers pid with _ | _
    · rfl
    · exact absurd (hinv.agree pid |>.2 ⟨(q, qs), hmem, hb⟩) (by rw [hfresh]; simp)
  refine ⟨nodup_keys_mapSet hinv.dirNodup, hnd', ?_, ?_, ?_⟩
  · intro e he
    rcases mem_mapSet_elim he with h | h
    · rw [h]
      exact nodup_keys_mapSet (hinv.ownNodup (q, qs) hmem)
    · exact hinv.ownNodup e h
  · intro pid'
    show mapHas (mapSet s.producers pid ()) pid' = true ↔
      ∃ e ∈ mapSet s.peers q qs', mapHas e.2.producers pid' = true
    rw [mapHas_set]
    constructor
    · rintro (h | h)
      · subst h
        exact ⟨(q, qs'), self_mem_mapSet _ _ _, mapHas_set_self qs.producers pid' ()⟩
      · obtain ⟨e, he, howns⟩ := (hinv.agree pid').1 h
        by_cases hk : e.1 = q
        · refine ⟨(q, qs'), self_mem_mapSet _ _ _, ?_⟩
          show mapHas qs'.producers pid' = true
          exact mapHas_set.2 (Or.inr (entry_snd_eq hinv.regNodup he hk hq ▸ howns))
        · exact ⟨e, mem_mapSet_of_mem he hk, howns⟩
    · rintro ⟨e, he, howns⟩
      rcases mem_mapSet_elim he with h | h
      · rw [h] at howns
        rcases mapHas_set.1 howns with h' | h'
        · exact Or.inl h'
        · exact Or.inr ((hinv.agree pid').2 ⟨(q, qs), hmem, h'⟩)
      · exact Or.inr ((hinv.agree pid').2 ⟨e, h, howns⟩)
  · intro pid' e1 e2 h1 h2 o1 o2
    have sameVal : ∀ e, e ∈ mapSet s.peers q qs' → e.1 = q → e.2 = qs' := by
      intro e he hk
      exact entry_snd_eq hnd' he hk (mapGet_set_self _ _ _)
    have toOld : ∀ e, e ∈ mapSet s.peers q qs' → mapHas e.2.producers pid' = true →
        (e = (q, qs') ∧ (pid' = pid ∨ mapHas qs.producers pid' = true)) ∨
          (e ∈ s.peers) := by
      intro e he howns
      rcases mem_mapSet_elim he with h | h
      · rw [h] at howns
        exact Or.inl ⟨h, mapHas_set.1 howns⟩
      · exact Or.inr h
    rcases toOld e1 h1 o1 with ⟨he1, hsub1⟩ | he1 <;>
      rcases toOld e2 h2 o2 with ⟨he2, hsub2⟩ | he2
    · rw [he1, he2]
    · rcases hsub1 with hp1 | hp1
      · exact absurd ((hinv.agree pid').2 ⟨e2, he2, o2⟩) (by rw [hp1, hfresh]; simp)
      · have he12 : (q, qs) = e2 := hinv.unique pid' (q, qs) e2 hmem he2 hp1 o2
        have h2q : e2.1 = q := by rw [← he12]
        have h2v : e2.2 = qs' := sameVal e2 h2 h2q
        have : qs = qs' := by
          have := congrArg Prod.snd he12
          simp only at this
          rw [this, h2v]
        exact absurd (mapHas_set_self qs.producers pid ()) (by
          rw [show mapSet qs.producers pid () = qs'.producers from rfl, ← this,
            hqsNotOwn]
          simp)
    · rcases hsub2 with hp2 | hp2
      · exact absurd ((hinv.agree pid').2 ⟨e1, he1, o1⟩) (by rw [hp2, hfresh]; simp)
      · have he12 : (q, qs) = e1 := hinv.unique pid' (q, qs) e1 hmem he1 hp2 o1
        have h1q : e1.1 = q := by rw [← he12]
        have h1v : e1.2 = qs' := sameVal e1 h1 h1q
        have : qs = qs' := by
          have := congrArg Prod.snd he12
          simp only at this
          rw [this, h1v]
        exact absurd (mapHas_set_self qs.producers pid ()) (by
          rw [show mapSet qs.producers pid () = qs'.producers from rfl, ← this,
            hqsNotOwn]
          simp)
    · exact hinv.unique pid' e1 e2 he1 he2 o1 o2


/-- The `close` handler preserves the invariant unconditionally. -/
theorem inv_close {s : ServerState} (p : String) (hinv : Inv s) :
    Inv (closePeer s p) := by
  rcases hget : mapGet s.peers p with _ | ps
  · simp only [closePeer, hget]
    exact ⟨hinv.dirNodup, hinv.regNodup, hinv.ownNodup, hinv.agree, hinv.unique⟩
  · simp only [closePeer, hget]
    have hmem : (p, ps) ∈ s.peers := mapGet_eq_some_mem hget
    refine ⟨?_, ?_, ?_, ?_, ?_⟩
    · exact nodup_foldl_delete _ _ hinv.dirNodup
    · exact nodup_keys_mapDelete hinv.regNodup
    · intro e he
      exact hinv.ownNodup e (mem_mapDelete.1 he).1
    · intro pid
      show mapHas (ps.producers.foldl (fun acc pr => mapDelete acc pr.1)
          s.producers) pid = true ↔
        ∃ e ∈ mapDelete s.peers p, mapHas e.2.producers pid = true
      rw [mapHas_foldl_delete]
      constructor
      · rintro ⟨hdir, hnot⟩
        obtain ⟨e, he, howns⟩ := (hinv.agree pid).1 hdir
        have hk : e.1 ≠ p := by
          intro hc
          have hval : e.2 = ps := entry_snd_eq hinv.regNodup he hc hget
          rw [hval] at howns
          exact hnot (mapHas_iff_mem_keys.1 howns)
        exact ⟨e, mem_mapDelete.2 ⟨he, hk⟩, howns⟩
      · rintro ⟨e, he, howns⟩
        obtain ⟨he', hk⟩ := mem_mapDelete.1 he
        refine ⟨(hinv.agree pid).2 ⟨e, he', howns⟩, ?_⟩
        intro hcont
        have hps : mapHas ps.producers pid = true := mapHas_iff_mem_keys.2 hcont
        have heq : e = (p, ps) := hinv.unique pid e (p, ps) he' hmem howns hps
        exact hk (by rw [heq])
    · intro pid e1 e2 h1 h2 o1 o2
      exact hinv.unique pid e1 e2 (mem_mapDelete.1 h1).1 (mem_mapDelete.1 h2).1 o1 o2

theorem wfTrace_cons (router : Router) (s : ServerState) (op : Op)
    (rest : List Op) :
    wfTrace router s (op :: rest)
      = (wfOp s op && wfTrace router (stepState router s op) rest) := rfl

/-- Every well-formed operation preserves the invariant. -/
theorem inv_step (router : Router) (s : ServerState) (op : Op)
    (hw : wfOp s op = true) (hinv : Inv s) : Inv (stepState router s op) := by
  cases op with
  | connect p =>
      have hp : mapHas s.peers p = false := by
        simpa [wfOp] using hw
      exact inv_connect hp hinv
  | close p => exact inv_close p hinv
  | msg q raw =>
      cases raw with
      | none => simpa [stepState, handleMessage] using hinv
      | some env =>
          obtain ⟨ev, rid⟩ := env
          cases ev with
          | getRouterRtpCapabilities =>
              simpa [stepState, handleMessage] using hinv
          | createWebRtcTransport tid =>
              rcases hget : mapGet s.peers q with _ | qs
              · simpa [stepState, handleMessage, hget] using hinv
              · simp only [stepState, handleMessage, hget]
                exact inv_update_session hget rfl hinv
          | connectWebRtcTransport tid =>
              rcases hget : mapGet s.peers q with _ | qs
              · simpa [stepState, handleMessage, hget] using hinv
              · rcases ht : mapHas qs.transports tid with _ | _ <;>
                  simpa [stepState, handleMessage, hget, ht] using hinv
          | produce tid pid =>
              have hfresh : mapHas s.producers pid = false := by
                simpa [wfOp] using hw
              rcases hget : mapGet s.peers q with _ | qs
              · simpa [stepState, handleMessage, hget] using hinv
              · rcases ht : mapHas qs.transports tid with _ | _
                · simpa [stepState, handleMessage, hget, ht] using hinv
                · simp only [stepState, handleMessage, hget, ht, if_true]
                  exact inv_produce hget hfresh hinv
          | consume tid pid caps cid =>
              rcases hget : mapGet s.peers q with _ | qs
              · simpa [stepState, handleMessage, hget] using hinv
              · rcases ht : mapHas qs.transports tid with _ | _
                · simpa [stepState, handleMessage, hget, ht] using hinv
                · rcases hpd : mapHas s.producers pid with _ | _
                  · simpa [stepState, handleMessage, hget, ht, hpd] using hinv
                  · by_cases hown : findProducerPeer s.peers pid = some q
                    · simpa [stepState, handleMessage, hget, ht, hpd, hown] using hinv
                    · rcases hcan : router.canConsume pid caps with _ | _
                      · simpa [stepState, handleMessage, hget, ht, hpd, hown, hcan]
                          using hinv
                      · simp only [stepState, handleMessage_consume_ok router s q
                          tid pid caps cid rid qs hget ht hpd hown hcan]
                        exact inv_update_session hget rfl hinv
          | resumeConsumer cid =>
              rcases hget : mapGet s.peers q with _ | qs
              · simpa [stepState, handleMessage, hget] using hinv
              · rcases hc : mapGet qs.consumers cid with _ | c
                · simpa [stepState, handleMessage, hget, hc] using hinv
                · simp only [stepState, handleMessage, hget, hc]
                  exact inv_update_session hget rfl hinv
          | unknown e =>
              rcases hget : mapGet s.peers q with _ | qs <;>
                simpa [stepState, handleMessage, hget] using hinv

/-- The invariant holds after any well-formed trace from an invariant
state. -/
theorem inv_fold (router : Router) (t : List Op) :
    ∀ s, wfTrace router s t = true → Inv s →
      Inv (t.foldl (stepState router) s) := by
  induction t with
  | nil =>
      intro s _ hinv
      exact hinv
  | cons op rest ih =>
      intro s hw hinv
      rw [wfTrace_cons, Bool.and_eq_true] at hw
      obtain ⟨h1, h2⟩ := hw
      rw [List.foldl_cons]
      exact ih _ h2 (inv_step router s op h1 hinv)

/-- The invariant holds at every quiescent point of a well-formed
execution from the empty server. -/
theorem inv_exec (router : Router) (t : List Op)
    (hw : wfTrace router initState t = true) : Inv (execState router t) :=
  inv_fold router t initState hw inv_init

theorem mapKeys_set_of_has {α : Type} {m : List (String × α)} {k : String}
    {v : α} (h : mapHas m k = true) : mapKeys (mapSet m k v) = mapKeys m := by
  induction m with
  | nil => simp [mapHas, mapGet_nil] at h
  | cons e rest ih =>
      by_cases he : e.1 = k
      · rw [mapSet_cons, if_pos he, mapKeys_cons, mapKeys_cons, he]
      · have h' : mapHas rest k = true := by
          simpa [mapHas, mapGet_cons, he] using h
        rw [mapSet_cons, if_neg he, mapKeys_cons, mapKeys_cons, ih h']

theorem wfTrace_append (router : Router) (t1 t2 : List Op) :
    ∀ s, wfTrace router s (t1 ++ t2)
      = (wfTrace router s t1 && wfTrace router (t1.foldl (stepState router) s) t2) := by
  induction t1 with
  | nil =>
      intro s
      simp [wfTrace]
  | cons op rest ih =>
      intro s
      rw [List.cons_append, wfTrace_cons, wfTrace_cons, ih, List.foldl_cons,
        Bool.and_assoc]

/-- No message handler ever removes an entry from the Producer Directory:
only `produce` touches it, and only by insertion. -/
theorem handleMessage_dir_mono (router : Router) (s : ServerState) (q : String)
    (raw : Option Envelope) (pid : String)
    (h : mapHas s.producers pid = true) :
    mapHas (handleMessage router s q raw).1.producers pid = true := by
  cases raw with
  | none => simpa [handleMessage] using h
  | some env =>
      obtain ⟨ev, rid⟩ := env
      rcases hget : mapGet s.peers q with _ | qs
      · cases ev <;> simpa [handleMessage, hget] using h
      · cases ev with
        | getRouterRtpCapabilities => simpa [handleMessage, hget] using h
        | createWebRtcTransport tid => simpa [handleMessage, hget] using h
        | connectWebRtcTransport tid =>
            rcases ht : mapHas qs.transports tid with _ | _ <;>
              simpa [handleMessage, hget, ht] using h
        | produce tid pid2 =>
            rcases ht : mapHas qs.transports tid with _ | _
            · simpa [handleMessage, hget, ht] using h
            · rw [handleMessage_produce_ok router s q tid pid2 rid qs hget ht]
              exact mapHas_set.2 (Or.inr h)
        | consume tid pid2 caps cid =>
            rcases ht : mapHas qs.transports tid with _ | _
            · simpa [handleMessage, hget, ht] using h
            · rcases hpd : mapHas s.producers pid2 with _ | _
              · simpa [handleMessage, hget, ht, hpd] using h
              · by_cases hown : findProducerPeer s.peers pid2 = some q
                · simpa [handleMessage, hget, ht, hpd, hown] using h
                · rcases hcan : router.canConsume pid2 caps with _ | _ <;>
                    simpa [handleMessage, hget, ht, hpd, hown, hcan] using h
        | resumeConsumer cid =>
            rcases hc : mapGet qs.consumers cid with _ | c <;>
              simpa [handleMessage, hget, hc] using h
        | unknown e => simpa [handleMessage, hget] using h

/-! ## Claim C1 -/

/-- C1, counterexample to the claim as stated: the sequence
connect A, create transport, produce p1, connect A again is a finite
sequence of connect/produce operations, yet at its quiescent end state the
directory still holds p1 while no registered session owns it — the
unconditional `peers.set` of index.ts line 55 replaced A's session with a
fresh empty one, so the directory's key set is not the union of the
sessions' key sets. -/
theorem C1_counterexample :
    mapHas (execState routerTrue (tProduceA ++ [Op.connect "A"])).producers "p1"
      = true ∧
    (execState routerTrue (tProduceA ++ [Op.connect "A"])).peers.all
      (fun e => !(mapHas e.2.producers "p1")) = true :=
  ⟨by decide, by decide⟩

/-- C1 (amended): over traces in which every connect presents a peer id
not currently registered (§4.2's register discipline; the duplicate
re-registration of the counterexample is excluded), every produce carries
a fresh engine id, and closes close registered peers, the quiescent-point
invariant holds: the Producer Directory's key set is exactly the union of
the registered sessions' producer key sets; disconnecting a peer owning N
producers removes exactly those N directory entries; and no message
processed afterwards (or ever) removes anything from the directory. -/
theorem C1_directory_union (router : Router) (t : List Op)
    (hw : wfTrace router initState t = true) :
    (∀ pid, mapHas (execState router t).producers pid = true ↔
       ∃ e ∈ (execState router t).peers, mapHas e.2.producers pid = true) ∧
    (∀ p ps, mapGet (execState router t).peers p = some ps →
       (∀ pid, mapHas (closePeer (execState router t) p).producers pid = true ↔
          (mapHas (execState router t).producers pid = true ∧
           mapHas ps.producers pid = false)) ∧
       (closePeer (execState router t) p).producers.length + ps.producers.length
         = (execState router t).producers.length) ∧
    (∀ q raw pid, mapHas (execState router t).producers pid = true →
       mapHas (handleMessage router (execState router t) q raw).1.producers pid
         = true) := by
  have hinv := inv_exec router t hw
  refine ⟨hinv.agree, ?_, ?_⟩
  · intro p ps hget
    have hmem : (p, ps) ∈ (execState router t).peers := mapGet_eq_some_mem hget
    have hndps : (mapKeys ps.producers).Nodup := hinv.ownNodup (p, ps) hmem
    simp only [closePeer, hget]
    constructor
    · intro pid
      rw [mapHas_foldl_delete]
      constructor
      · rintro ⟨h1, h2⟩
        refine ⟨h1, ?_⟩
        rcases hb : mapHas ps.producers pid with _ | _
        · rfl
        · exact absurd (mapHas_iff_mem_keys.1 hb) h2
      · rintro ⟨h1, h2⟩
        refine ⟨h1, fun hc => ?_⟩
        have hc' := mapHas_iff_mem_keys.2 hc
        rw [h2] at hc'
        exact absurd hc' (by decide)
    · exact length_foldl_delete ps.producers (execState router t).producers
        hinv.dirNodup hndps
        (fun x hx => (hinv.agree x).2 ⟨(p, ps), hmem, mapHas_iff_mem_keys.2 hx⟩)
  · intro q raw pid h
    exact handleMessage_dir_mono router (execState router t) q raw pid h

/-- Witness for C1: the directory/union equivalence evaluated on the
concrete one-producer trace. -/
theorem C1_directory_union_witness :
    wfTrace routerTrue initState tProduceA = true ∧
    (mapHas (execState routerTrue tProduceA).producers "p1" = true ↔
      ∃ e ∈ (execState routerTrue tProduceA).peers,
        mapHas e.2.producers "p1" = true) :=
  ⟨by decide, (C1_directory_union routerTrue tProduceA (by decide)).1 "p1"⟩

theorem execState_append_single (router : Router) (t : List Op) (op : Op) :
    execState router (t ++ [op]) = stepState router (execState router t) op := by
  simp [execState, List.foldl_append]

/-! ## Claim C2 -/

/-- C2, counterexample to the claim as stated: in the embedded server
variant, when peer A — already owning producer p1 — produces p2, the
existing-producer loop of its `produce` case sends A a `new-producer`
notification for p1, A's own producer (the loop only excludes the producer
just created, never the sender's other producers). -/
theorem C2_counterexample :
    (produceHandlerW sW "A" "t1" "p2").2.contains
      ("A", OutMsg.mk "new-producer" "p1" none) = true ∧
    findProducerPeer (produceHandlerW sW "A" "t1" "p2").1.peers "p1"
      = some "A" :=
  ⟨by decide, by decide⟩

/-- C2 (amended): the primary server (index.ts) never notifies a peer of
its own producer — over well-formed traces, every `new-producer` message
any operation emits is addressed to a socket whose registered session,
right after that operation, does not own the announced producer; the
produce broadcast excludes the sender and the connection-time backfill
skips producers the connecting peer owns. The embedded variant's
produce-time echo loop (the counterexample) violates this. -/
theorem C2_no_own_producer_notification (router : Router) (t : List Op)
    (op : Op) (hw : wfTrace router initState (t ++ [op]) = true) :
    ∀ c m, (c, m) ∈ stepOuts router (execState router t) op →
      m.event = "new-producer" →
      ∀ ps, mapGet (execState router (t ++ [op])).peers c = some ps →
        mapHas ps.producers m.data = false := by
  rw [wfTrace_append, Bool.and_eq_true] at hw
  obtain ⟨hwt, hwop⟩ := hw
  rw [wfTrace_cons, Bool.and_eq_true] at hwop
  have hwo : wfOp (execState router t) op = true := hwop.1
  have hinv := inv_exec router t hwt
  intro c m hmem hevent ps hps
  rw [execState_append_single] at hps
  cases op with
  | close p => simp [stepOuts] at hmem
  | connect p =>
      simp only [stepOuts, connect] at hmem
      obtain ⟨pr, _, hpr⟩ := List.mem_filterMap.1 hmem
      by_cases hguard : findProducerPeer
          (mapSet (execState router t).peers p (freshPeer p)) pr.1 = some p
      · rw [if_pos hguard] at hpr
        exact absurd hpr (by simp)
      · rw [if_neg hguard] at hpr
        have heq : (p, OutMsg.mk "new-producer" pr.1 none) = (c, m) :=
          Option.some.inj hpr
        have hcp : p = c := congrArg Prod.fst heq
        subst hcp
        have hps' : mapGet (mapSet (execState router t).peers p (freshPeer p)) p
            = some ps := hps
        rw [mapGet_set_self] at hps'
        rw [← Option.some.inj hps']
        rfl
  | msg q raw =>
      cases raw with
      | none => simp [stepOuts, handleMessage] at hmem
      | some env =>
          obtain ⟨ev, rid⟩ := env
          rcases hget : mapGet (execState router t).peers q with _ | qs
          · cases ev <;>
              simp [stepOuts, handleMessage, hget] at hmem <;>
              (obtain ⟨hc2, hm⟩ := hmem; subst hm; simp at hevent)
          · cases ev with
            | getRouterRtpCapabilities =>
                simp [stepOuts, handleMessage, hget] at hmem
                obtain ⟨hc2, hm⟩ := hmem
                subst hm
                simp at hevent
            | createWebRtcTransport tid =>
                simp [stepOuts, handleMessage, hget] at hmem
                obtain ⟨hc2, hm⟩ := hmem
                subst hm
                simp at hevent
            | connectWebRtcTransport tid =>
                rcases ht : mapHas qs.transports tid with _ | _ <;>
                  simp [stepOuts, handleMessage, hget, ht] at hmem <;>
                  (obtain ⟨hc2, hm⟩ := hmem; subst hm; simp at hevent)
            | resumeConsumer cid =>
                rcases hcons : mapGet qs.consumers cid with _ | cons <;>
                  simp [stepOuts, handleMessage, hget, hcons] at hmem <;>
                  (obtain ⟨hc2, hm⟩ := hmem; subst hm; simp at hevent)
            | unknown e => simp [stepOuts, handleMessage, hget] at hmem
            | consume tid pid caps cid =>
                rcases ht : mapHas qs.transports tid with _ | _
                · simp [stepOuts, handleMessage, hget, ht] at hmem
                  obtain ⟨hc2, hm⟩ := hmem
                  subst hm
                  simp at hevent
                · rcases hpd : mapHas (execState router t).producers pid
                      with _ | _
                  · simp [stepOuts, handleMessage, hget, ht, hpd] at hmem
                    obtain ⟨hc2, hm⟩ := hmem
                    subst hm
                    simp at hevent
                  · by_cases hown : findProducerPeer (execState router t).peers
                        pid = some q
                    · simp [stepOuts, handleMessage, hget, ht, hpd, hown] at hmem
                    · rcases hcan : router.canConsume pid caps with _ | _ <;>
                        simp [stepOuts, handleMessage, hget, ht, hpd, hown,
                          hcan] at hmem <;>
                        (obtain ⟨hc2, hm⟩ := hmem; subst hm; simp at hevent)
            | produce tid pid =>
                rcases ht : mapHas qs.transports tid with _ | _
                · simp [stepOuts, handleMessage, hget, ht] at hmem
                  obtain ⟨hc2, hm⟩ := hmem
                  subst hm
                  simp at hevent
                · have hfresh : mapHas (execState router t).producers pid
                      = false := by
                    simpa [wfOp] using hwo
                  have hkey := handleMessage_produce_ok router
                    (execState router t) q tid pid rid qs hget ht
                  rw [show stepOuts router (execState router t)
                        (Op.msg q (some ⟨ClientEvent.produce tid pid, rid⟩))
                      = (handleMessage router (execState router t) q
                          (some ⟨ClientEvent.produce tid pid, rid⟩)).2 from rfl,
                    hkey] at hmem
                  rw [show stepState router (execState router t)
                        (Op.msg q (some ⟨ClientEvent.produce tid pid, rid⟩))
                      = (handleMessage router (execState router t) q
                          (some ⟨ClientEvent.produce tid pid, rid⟩)).1 from rfl,
                    hkey] at hps
                  rcases List.mem_append.1 hmem with hbr | hrep
                  · obtain ⟨a, ha, hpr⟩ := List.mem_filterMap.1 hbr
                    by_cases haq : a = q
                    · rw [if_pos haq] at hpr
                      exact absurd hpr (by simp)
                    · rw [if_neg haq] at hpr
                      have heq : (a, OutMsg.mk "new-producer" pid none) = (c, m) :=
                        Option.some.inj hpr
                      have hac : a = c := congrArg Prod.fst heq
                      have hmm : OutMsg.mk "new-producer" pid none = m :=
                        congrArg Prod.snd heq
                      subst hac
                      have hps2 : mapGet (execState router t).peers a = some ps := by
                        simpa [mapGet_set_ne _ q a _ haq] using hps
                      have hmemp : (a, ps) ∈ (execState router t).peers :=
                        mapGet_eq_some_mem hps2
                      rw [← hmm]
                      show mapHas ps.producers pid = false
                      rcases hb : mapHas ps.producers pid with _ | _
                      · rfl
                      · exact absurd ((hinv.agree pid).2 ⟨(a, ps), hmemp, hb⟩)
                          (by rw [hfresh]; simp)
                  · simp only [List.mem_singleton] at hrep
                    have hmm : m = OutMsg.mk "produce" pid rid :=
                      congrArg Prod.snd hrep
                    subst hmm
                    simp at hevent

/-- Witness for C2: B connects after A has produced p1; the backfill
message B receives for p1 names a producer B's fresh session does not
own. -/
theorem C2_no_own_producer_notification_witness :
    wfTrace routerTrue initState (tProduceA ++ [Op.connect "B"]) = true ∧
    ("B", OutMsg.mk "new-producer" "p1" none) ∈
      stepOuts routerTrue (execState routerTrue tProduceA) (Op.connect "B") ∧
    mapGet (execState routerTrue (tProduceA ++ [Op.connect "B"])).peers "B"
      = some (freshPeer "B") ∧
    mapHas (freshPeer "B").producers "p1" = false :=
  ⟨by decide, by decide, by decide,
   C2_no_own_producer_notification routerTrue tProduceA (Op.connect "B")
     (by decide) "B" (OutMsg.mk "new-producer" "p1" none) (by decide) rfl
     (freshPeer "B") (by decide)⟩

/-! ## Claim C3 -/

/-- C3, counterexample to the claim as stated: A is registered (and owns
transport t1 and producer p1), yet a second connection presenting the same
peerId is not rejected — registration succeeds and the registry entry for
A becomes the duplicate's fresh empty session, so the already-registered
session is not left unchanged. -/
theorem C3_counterexample :
    mapHas (execState routerTrue tProduceA).peers "A" = true ∧
    mapGet (execState routerTrue (tProduceA ++ [Op.connect "A"])).peers "A"
      = some (freshPeer "A") ∧
    mapGet (execState routerTrue tProduceA).peers "A" ≠ some (freshPeer "A") :=
  ⟨by decide, by decide, by decide⟩

/-- C3 (amended): a connection presenting an already-registered peerId is
not rejected; `peers.set` (index.ts line 55) overwrites in place, so the
registry maps the peerId to the duplicate's fresh empty session while the
registry's key set is unchanged — the previous session is dropped from the
registry, not protected. -/
theorem C3_duplicate_overwrites (s : ServerState) (p : String)
    (hp : mapHas s.peers p = true) :
    mapGet (connect s p).1.peers p = some (freshPeer p) ∧
    mapKeys (connect s p).1.peers = mapKeys s.peers :=
  ⟨mapGet_set_self s.peers p (freshPeer p), mapKeys_set_of_has hp⟩

/-- Witness for C3: the duplicate connect of the concrete trace. -/
theorem C3_duplicate_overwrites_witness :
    mapHas (execState routerTrue tProduceA).peers "A" = true ∧
    (mapGet (connect (execState routerTrue tProduceA) "A").1.peers "A"
       = some (freshPeer "A") ∧
     mapKeys (connect (execState routerTrue tProduceA) "A").1.peers
       = mapKeys (execState routerTrue tProduceA).peers) :=
  ⟨by decide, C3_duplicate_overwrites (execState routerTrue tProduceA) "A"
    (by decide)⟩

/-! ## Claim C4 -/

/-- C4, counterexample to the claim as stated: two protocol errors draw no
error reply at all. An unknown event from a registered peer hits the
default branch, which only logs (index.ts 214-216); a malformed envelope
makes the catch block's own `JSON.parse` throw (line 223) before anything
is sent. In both runs the output list is empty — no error event reaches
the peer. -/
theorem C4_counterexample :
    (handleMessage routerTrue (execState routerTrue tProduceA) "A"
       (some ⟨ClientEvent.unknown "bogus", some "r9"⟩)).2 = [] ∧
    (handleMessage routerTrue (execState routerTrue tProduceA) "A" none).2
      = [] :=
  ⟨by decide, rfl⟩

/-- C4 (amended): protocol errors that throw inside a handler — peer state
not found, transport/producer/consumer not found — are reported back to
the originating peer as an `error` event carrying the original requestId,
with the state (channel included) unchanged; but malformed envelopes and
unknown events produce no reply at all, and the own-producer consume guard
returns silently. -/
theorem C4_handler_errors_replied (router : Router) (s : ServerState)
    (q tid pid caps cid : String) (rid : Option String) :
    (mapGet s.peers q = none → ∀ ev : ClientEvent,
       ev ≠ ClientEvent.getRouterRtpCapabilities →
       handleMessage router s q (some ⟨ev, rid⟩)
         = (s, [(q, OutMsg.mk "error" "Peer state not found" rid)])) ∧
    (∀ qs, mapGet s.peers q = some qs → mapHas qs.transports tid = false →
       handleMessage router s q
           (some ⟨ClientEvent.connectWebRtcTransport tid, rid⟩)
         = (s, [(q, OutMsg.mk "error"
             ("Transport with id \x22" ++ tid ++ "\x22 not found") rid)])) ∧
    (∀ qs, mapGet s.peers q = some qs → mapHas qs.transports tid = false →
       handleMessage router s q (some ⟨ClientEvent.produce tid pid, rid⟩)
         = (s, [(q, OutMsg.mk "error"
             ("Transport with id \x22" ++ tid ++ "\x22 not found") rid)])) ∧
    (∀ qs, mapGet s.peers q = some qs → mapHas qs.transports tid = false →
       handleMessage router s q
           (some ⟨ClientEvent.consume tid pid caps cid, rid⟩)
         = (s, [(q, OutMsg.mk "error"
             ("Transport with id \x22" ++ tid ++ "\x22 not found") rid)])) ∧
    (∀ qs, mapGet s.peers q = some qs → mapHas qs.transports tid = true →
       mapHas s.producers pid = false →
       handleMessage router s q
           (some ⟨ClientEvent.consume tid pid caps cid, rid⟩)
         = (s, [(q, OutMsg.mk "error"
             ("Producer with id \x22" ++ pid ++ "\x22 not found") rid)])) ∧
    (∀ qs, mapGet s.peers q = some qs → mapGet qs.consumers cid = none →
       handleMessage router s q (some ⟨ClientEvent.resumeConsumer cid, rid⟩)
         = (s, [(q, OutMsg.mk "error"
             ("Consumer with id \x22" ++ cid ++ "\x22 not found") rid)])) := by
  refine ⟨?_, ?_, ?_, ?_, ?_, ?_⟩
  · intro hget ev hne
    cases ev with
    | getRouterRtpCapabilities => exact absurd rfl hne
    | createWebRtcTransport a => simp [handleMessage, hget]
    | connectWebRtcTransport a => simp [handleMessage, hget]
    | produce a b => simp [handleMessage, hget]
    | consume a b c d => simp [handleMessage, hget]
    | resumeConsumer a => simp [handleMessage, hget]
    | unknown a => simp [handleMessage, hget]
  · intro qs hget ht
    simp [handleMessage, hget, ht]
  · intro qs hget ht
    simp [handleMessage, hget, ht]
  · intro qs hget ht
    simp [handleMessage, hget, ht]
  · intro qs hget ht hpd
    simp [handleMessage, hget, ht, hpd]
  · intro qs hget hc
    simp [handleMessage, hget, hc]

/-- Witness for C4: a consume naming a missing producer, against the
concrete one-producer state, draws the tagged error reply. -/
theorem C4_handler_errors_replied_witness :
    mapGet (execState routerTrue tProduceA).peers "A"
      = some (PeerState.mk "A" [("t1", ())] [("p1", ())] []) ∧
    handleMessage routerTrue (execState routerTrue tProduceA) "A"
        (some ⟨ClientEvent.consume "t1" "nope" "caps" "c9", some "r7"⟩)
      = (execState routerTrue tProduceA,
         [("A", OutMsg.mk "error"
             ("Producer with id \x22" ++ "nope" ++ "\x22 not found")
             (some "r7"))]) := by
  refine ⟨by decide, ?_⟩
  exact (C4_handler_errors_replied routerTrue (execState routerTrue tProduceA)
    "A" "t1" "nope" "caps" "c9" (some "r7")).2.2.2.2.1
    (PeerState.mk "A" [("t1", ())] [("p1", ())] []) (by decide) (by decide)
    (by decide)

/-! ## Claim C5 -/

/-- C5, counterexample to the claim as stated: the server's reply envelope
has no field named `id` — index.ts line 82 builds
`{ event, data, requestId }`, so the correlation field is `requestId`, and
the envelope shape the claim states (`{ event, data, id }`) is not the one
on the wire. -/
theorem C5_counterexample :
    serverReplyFields.contains "id" = false ∧
    serverReplyFields ≠ ["event", "data", "id"] :=
  ⟨by decide, by decide⟩

/-- C5 (amended): every reply the server sends back to the requesting
socket carries a `requestId` field equal to the originating envelope's
`requestId` (the `send` helper and the catch block both echo it), while
messages addressed to other sockets are unsolicited `new-producer`
notifications with no correlation field; the first client variant matches
replies on the same `requestId` field, whereas the second client variant
uses a field named `id`, which the server neither reads nor echoes. -/
theorem C5_requestId_echo (router : Router) (s : ServerState) (q : String)
    (env : Envelope) :
    (∀ c m, (c, m) ∈ (handleMessage router s q (some env)).2 →
       (c = q → m.requestId = env.requestId) ∧
       (c ≠ q → m.requestId = none ∧ m.event = "new-producer")) ∧
    serverReplyFields = clientRequestFieldsV1 ∧
    serverReplyFields ≠ clientRequestFieldsV2 := by
  refine ⟨?_, rfl, by decide⟩
  intro c m hmem
  obtain ⟨ev, rid⟩ := env
  rcases hget : mapGet s.peers q with _ | qs
  · cases ev <;>
      simp [handleMessage, hget] at hmem <;>
      (obtain ⟨hc2, hm⟩ := hmem; subst hm; subst hc2;
       exact ⟨fun _ => rfl, fun hne => absurd rfl hne⟩)
  · cases ev with
    | getRouterRtpCapabilities =>
        simp [handleMessage, hget] at hmem
        obtain ⟨hc2, hm⟩ := hmem
        subst hm
        subst hc2
        exact ⟨fun _ => rfl, fun hne => absurd rfl hne⟩
    | createWebRtcTransport tid =>
        simp [handleMessage, hget] at hmem
        obtain ⟨hc2, hm⟩ := hmem
        subst hm
        subst hc2
        exact ⟨fun _ => rfl, fun hne => absurd rfl hne⟩
    | connectWebRtcTransport tid =>
        rcases ht : mapHas qs.transports tid with _ | _ <;>
          simp [handleMessage, hget, ht] at hmem <;>
          (obtain ⟨hc2, hm⟩ := hmem; subst hm; subst hc2;
           exact ⟨fun _ => rfl, fun hne => absurd rfl hne⟩)
    | resumeConsumer cid =>
        rcases hcons : mapGet qs.consumers cid with _ | c0 <;>
          simp [handleMessage, hget, hcons] at hmem <;>
          (obtain ⟨hc2, hm⟩ := hmem; subst hm; subst hc2;
           exact ⟨fun _ => rfl, fun hne => absurd rfl hne⟩)
    | unknown a => simp [handleMessage, hget] at hmem
    | consume tid pid caps cid =>
        rcases ht : mapHas qs.transports tid with _ | _
        · simp [handleMessage, hget, ht] at hmem
          obtain ⟨hc2, hm⟩ := hmem
          subst hm
          subst hc2
          exact ⟨fun _ => rfl, fun hne => absurd rfl hne⟩
        · rcases hpd : mapHas s.producers pid with _ | _
          · simp [handleMessage, hget, ht, hpd] at hmem
            obtain ⟨hc2, hm⟩ := hmem
            subst hm
            subst hc2
            exact ⟨fun _ => rfl, fun hne => absurd rfl hne⟩
          · by_cases hown : findProducerPeer s.peers pid = some q
            · simp [handleMessage, hget, ht, hpd, hown] at hmem
            · rcases hcan : router.canConsume pid caps with _ | _ <;>
                simp [handleMessage, hget, ht, hpd, hown, hcan] at hmem <;>
                (obtain ⟨hc2, hm⟩ := hmem; subst hm; subst hc2;
                 exact ⟨fun _ => rfl, fun hne => absurd rfl hne⟩)
    | produce tid pid =>
        rcases ht : mapHas qs.transports tid with _ | _
        · simp [handleMessage, hget, ht] at hmem
          obtain ⟨hc2, hm⟩ := hmem
          subst hm
          subst hc2
          exact ⟨fun _ => rfl, fun hne => absurd rfl hne⟩
        · rw [handleMessage_produce_ok router s q tid pid rid qs hget ht] at hmem
          rcases List.mem_append.1 hmem with hbr | hrep
          · obtain ⟨a, _, hpr⟩ := List.mem_filterMap.1 hbr
            by_cases haq : a = q
            · rw [if_pos haq] at hpr
              exact absurd hpr (by simp)
            · rw [if_neg haq] at hpr
              have heq : (a, OutMsg.mk "new-producer" pid none) = (c, m) :=
                Option.some.inj hpr
              have hac : a = c := congrArg Prod.fst heq
              have hmm : OutMsg.mk "new-producer" pid none = m :=
                congrArg Prod.snd heq
              subst hac
              refine ⟨fun hcq => absurd hcq haq, fun _ => ?_⟩
              rw [← hmm]
              exact ⟨rfl, rfl⟩
          · simp only [List.mem_singleton] at hrep
            have hc2 : c = q := congrArg Prod.fst hrep
            have hm : m = OutMsg.mk "produce" pid rid := congrArg Prod.snd hrep
            subst hm
            subst hc2
            exact ⟨fun _ => rfl, fun hne => absurd rfl hne⟩

/-- Witness for C5: the transport-creation reply of the concrete run
echoes its request's id. -/
theorem C5_requestId_echo_witness :
    ("A", OutMsg.mk "createWebRtcTransport" "t9" (some "r8")) ∈
      (handleMessage routerTrue (execState routerTrue tProduceA) "A"
        (some ⟨ClientEvent.createWebRtcTransport "t9", some "r8"⟩)).2 ∧
    (OutMsg.mk "createWebRtcTransport" "t9" (some "r8")).requestId
      = some "r8" :=
  ⟨by decide,
   ((C5_requestId_echo routerTrue (execState routerTrue tProduceA) "A"
       ⟨ClientEvent.createWebRtcTransport "t9", some "r8"⟩).1 "A"
     (OutMsg.mk "createWebRtcTransport" "t9" (some "r8")) (by decide)).1 rfl⟩

/-! ## Claim C6 -/

/-- C6: a consume whose capability check fails (`router.canConsume`
false) — with every earlier guard passing — throws before
`transport.consume` runs: the peer gets exactly the capability-mismatch
error tagged with its request id, and the state, the requesting session
and its consumers map included, is returned unchanged, so no consumer is
created or attached. -/
theorem C6_capability_mismatch (router : Router) (s : ServerState)
    (q tid pid caps cid : String) (rid : Option String) (qs : PeerState)
    (hget : mapGet s.peers q = some qs) (ht : mapHas qs.transports tid = true)
    (hpd : mapHas s.producers pid = true)
    (hown : findProducerPeer s.peers pid ≠ some q)
    (hcan : router.canConsume pid caps = false) :
    handleMessage router s q (some ⟨ClientEvent.consume tid pid caps cid, rid⟩)
      = (s, [(q, OutMsg.mk "error" ("Cannot consume producer " ++ pid) rid)]) :=
  handleMessage_consume_mismatch router s q tid pid caps cid rid qs hget ht hpd
    hown hcan

/-- Witness for C6: B, holding transport t2, asks to consume A's p1
against a router that rejects the pairing. -/
theorem C6_capability_mismatch_witness :
    handleMessage routerFalse (execState routerFalse (tConsumeB.take 5)) "B"
        (some ⟨ClientEvent.consume "t2" "p1" "caps" "c1", some "r4"⟩)
      = (execState routerFalse (tConsumeB.take 5),
         [("B", OutMsg.mk "error" ("Cannot consume producer " ++ "p1")
            (some "r4"))]) :=
  C6_capability_mismatch routerFalse (execState routerFalse (tConsumeB.take 5))
    "B" "t2" "p1" "caps" "c1" (some "r4")
    (PeerState.mk "B" [("t2", ())] [] []) (by decide) (by decide) (by decide)
    (by decide) rfl

/-! ## Claim C7 -/

/-- An unpaused consumer after one step was already unpaused before it,
unless the step is the `resume-consumer` request for that very consumer
id: `consume` attaches consumers with `paused: true` and no other handler
touches a paused flag. -/
theorem step_unpaused_origin (router : Router) (s : ServerState) (op : Op)
    (cid : String)
    (h : ∃ e ∈ (stepState router s op).peers, ∃ c,
        mapGet e.2.consumers cid = some c ∧ c.paused = false) :
    (∃ e ∈ s.peers, ∃ c, mapGet e.2.consumers cid = some c ∧
       c.paused = false) ∨
    (∃ q rid, op = Op.msg q (some ⟨ClientEvent.resumeConsumer cid, rid⟩)) := by
  obtain ⟨e, he, c, hc, hp⟩ := h
  cases op with
  | connect p =>
      left
      rcases mem_mapSet_elim
          (show e ∈ mapSet s.peers p (freshPeer p) from he) with h1 | h1
      · rw [h1] at hc
        simp [freshPeer, mapGet_nil] at hc
      · exact ⟨e, h1, c, hc, hp⟩
  | close p =>
      left
      rcases hget : mapGet s.peers p with _ | ps
      · refine ⟨e, ?_, c, hc, hp⟩
        simpa [stepState, closePeer, hget] using he
      · have he' : e ∈ mapDelete s.peers p := by
          simpa [stepState, closePeer, hget] using he
        exact ⟨e, (mem_mapDelete.1 he').1, c, hc, hp⟩
  | msg q raw =>
      cases raw with
      | none =>
          left
          exact ⟨e, by simpa [stepState, handleMessage] using he, c, hc, hp⟩
      | some env =>
          obtain ⟨ev, rid⟩ := env
          rcases hget : mapGet s.peers q with _ | qs
          · left
            refine ⟨e, ?_, c, hc, hp⟩
            cases ev <;> simpa [stepState, handleMessage, hget] using he
          · cases ev with
            | getRouterRtpCapabilities =>
                left
                exact ⟨e, by simpa [stepState, handleMessage, hget] using he,
                  c, hc, hp⟩
            | unknown a =>
                left
                exact ⟨e, by simpa [stepState, handleMessage, hget] using he,
                  c, hc, hp⟩
            | connectWebRtcTransport tid =>
                left
                refine ⟨e, ?_, c, hc, hp⟩
                rcases ht : mapHas qs.transports tid with _ | _ <;>
                  simpa [stepState, handleMessage, hget, ht] using he
            | createWebRtcTransport tid =>
                left
                have he' : e ∈ mapSet s.peers q
                    { qs with transports := mapSet qs.transports tid () } := by
                  simpa [stepState, handleMessage, hget] using he
                rcases mem_mapSet_elim he' with h1 | h1
                · refine ⟨(q, qs), mapGet_eq_some_mem hget, c, ?_, hp⟩
                  rw [h1] at hc
                  exact hc
                · exact ⟨e, h1, c, hc, hp⟩
            | produce tid pid =>
                left
                rcases ht : mapHas qs.transports tid with _ | _
                · exact ⟨e,
                    by simpa [stepState, handleMessage, hget, ht] using he,
                    c, hc, hp⟩
                · have he2 := he
                  rw [show stepState router s
                        (Op.msg q (some ⟨ClientEvent.produce tid pid, rid⟩))
                      = (handleMessage router s q
                          (some ⟨ClientEvent.produce tid pid, rid⟩)).1 from rfl,
                    handleMessage_produce_ok router s q tid pid rid qs hget ht]
                    at he2
                  rcases mem_mapSet_elim he2 with h1 | h1
                  · refine ⟨(q, qs), mapGet_eq_some_mem hget, c, ?_, hp⟩
                    rw [h1] at hc
                    exact hc
                  · exact ⟨e, h1, c, hc, hp⟩
            | consume tid pid caps cid2 =>
                left
                rcases ht : mapHas qs.transports tid with _ | _
                · exact ⟨e,
                    by simpa [stepState, handleMessage, hget, ht] using he,
                    c, hc, hp⟩
                · rcases hpd : mapHas s.producers pid with _ | _
                  · exact ⟨e,
                      by simpa [stepState, handleMessage, hget, ht, hpd] using he,
                      c, hc, hp⟩
                  · by_cases hown : findProducerPeer s.peers pid = some q
                    · exact ⟨e,
                        by simpa [stepState, handleMessage, hget, ht, hpd, hown]
                          using he,
                        c, hc, hp⟩
                    · rcases hcan : router.canConsume pid caps with _ | _
                      · exact ⟨e,
                          by simpa [stepState, handleMessage, hget, ht, hpd,
                            hown, hcan] using he,
                          c, hc, hp⟩
                      · have he2 := he
                        rw [show stepState router s (Op.msg q (some
                              ⟨ClientEvent.consume tid pid caps cid2, rid⟩))
                            = (handleMessage router s q (some
                                ⟨ClientEvent.consume tid pid caps cid2,
                                  rid⟩)).1 from rfl,
                          handleMessage_consume_ok router s q tid pid caps cid2
                            rid qs hget ht hpd hown hcan] at he2
                        rcases mem_mapSet_elim he2 with h1 | h1
                        · by_cases hcc : cid = cid2
                          · subst hcc
                            rw [h1] at hc
                            have : mapGet (mapSet qs.consumers cid
                                (Consumer.mk cid pid true)) cid
                                = some (Consumer.mk cid pid true) :=
                              mapGet_set_self _ _ _
                            rw [this] at hc
                            have hcp : c = Consumer.mk cid pid true :=
                              (Option.some.inj hc).symm
                            rw [hcp] at hp
                            simp at hp
                          · refine ⟨(q, qs), mapGet_eq_some_mem hget, c, ?_, hp⟩
                            rw [h1] at hc
                            have := mapGet_set_ne qs.consumers cid2 cid
                              (Consumer.mk cid2 pid true) hcc
                            rw [this] at hc
                            exact hc
                        · exact ⟨e, h1, c, hc, hp⟩
            | resumeConsumer cid2 =>
                rcases hcons : mapGet qs.consumers cid2 with _ | c0
                · left
                  exact ⟨e,
                    by simpa [stepState, handleMessage, hget, hcons] using he,
                    c, hc, hp⟩
                · have he2 := he
                  rw [show stepState router s
                        (Op.msg q (some ⟨ClientEvent.resumeConsumer cid2, rid⟩))
                      = (handleMessage router s q (some
                          ⟨ClientEvent.resumeConsumer cid2, rid⟩)).1 from rfl,
                    handleMessage_resume_ok router s q cid2 rid qs c0 hget
                      hcons] at he2
                  by_cases hcc : cid = cid2
                  · subst hcc
                    exact Or.inr ⟨q, rid, rfl⟩
                  · left
                    rcases mem_mapSet_elim he2 with h1 | h1
                    · refine ⟨(q, qs), mapGet_eq_some_mem hget, c, ?_, hp⟩
                      rw [h1] at hc
                      have := mapGet_set_ne qs.consumers cid2 cid
                        { c0 with paused := false } hcc
                      rw [this] at hc
                      exact hc
                    · exact ⟨e, h1, c, hc, hp⟩

/-- Over a whole trace: an unpaused consumer in the final state was
unpaused in the initial state or some operation of the trace is the
`resume-consumer` request for its id. -/
theorem fold_unpaused_origin (router : Router) (t : List Op) :
    ∀ s cid,
      (∃ e ∈ (t.foldl (stepState router) s).peers, ∃ c,
          mapGet e.2.consumers cid = some c ∧ c.paused = false) →
      (∃ e ∈ s.peers, ∃ c, mapGet e.2.consumers cid = some c ∧
         c.paused = false) ∨
      (∃ q rid, Op.msg q (some ⟨ClientEvent.resumeConsumer cid, rid⟩) ∈ t) := by
  induction t with
  | nil =>
      intro s cid h
      exact Or.inl h
  | cons op rest ih =>
      intro s cid h
      rw [List.foldl_cons] at h
      rcases ih (stepState router s op) cid h with h1 | h1
      · rcases step_unpaused_origin router s op cid h1 with h2 | h2
        · exact Or.inl h2
        · obtain ⟨q, rid, hop⟩ := h2
          exact Or.inr ⟨q, rid, hop ▸ List.mem_cons_self _ _⟩
      · obtain ⟨q, rid, hmem⟩ := h1
        exact Or.inr ⟨q, rid, List.mem_cons_of_mem _ hmem⟩

/-- C7: consumers come into existence paused, and only `resume-consumer`
activates them. A successful consume attaches exactly the consumer record
with `paused = true`; and in any execution from the empty server, a
session holding an unpaused consumer proves the trace contains the
`resume-consumer` request for that consumer id — no other code path
resumes. -/
theorem C7_consumers_created_paused (router : Router) :
    (∀ s q tid pid caps cid rid qs,
       mapGet s.peers q = some qs → mapHas qs.transports tid = true →
       mapHas s.producers pid = true → findProducerPeer s.peers pid ≠ some q →
       router.canConsume pid caps = true →
       mapGet (handleMessage router s q
           (some ⟨ClientEvent.consume tid pid caps cid, rid⟩)).1.peers q
         = some ({ qs with consumers := mapSet qs.consumers cid (Consumer.mk cid pid true) }) ∧
       mapGet (mapSet qs.consumers cid (Consumer.mk cid pid true)) cid
         = some (Consumer.mk cid pid true)) ∧
    (∀ t cid, hasUnpausedConsumer (execState router t) cid = true →
       ∃ q rid, Op.msg q (some ⟨ClientEvent.resumeConsumer cid, rid⟩) ∈ t) := by
  constructor
  · intro s q tid pid caps cid rid qs hget ht hpd hown hcan
    rw [handleMessage_consume_ok router s q tid pid caps cid rid qs hget ht hpd
      hown hcan]
    exact ⟨mapGet_set_self _ _ _, mapGet_set_self _ _ _⟩
  · intro t cid h
    rw [hasUnpausedConsumer, List.any_eq_true] at h
    obtain ⟨e, he, hpred⟩ := h
    have hex : ∃ e ∈ (execState router t).peers, ∃ c,
        mapGet e.2.consumers cid = some c ∧ c.paused = false := by
      rcases hc : mapGet e.2.consumers cid with _ | c
      · rw [hc] at hpred
        simp at hpred
      · rw [hc] at hpred
        rcases hcp : c.paused with _ | _
        · exact ⟨e, he, c, hc, hcp⟩
        · simp [hcp] at hpred
    rcases fold_unpaused_origin router t initState cid hex with h1 | h1
    · obtain ⟨e2, he2, _⟩ := h1
      simp [initState] at he2
    · exact h1

/-- Witness for C7: the concrete consume of the two-peer run attaches the
paused consumer record, and the unpaused consumer of the full run is
explained by its `resume-consumer` operation. -/
theorem C7_consumers_created_paused_witness :
    hasUnpausedConsumer (execState routerTrue tConsumeB) "c1" = true ∧
    (∃ q rid, Op.msg q (some ⟨ClientEvent.resumeConsumer "c1", rid⟩)
       ∈ tConsumeB) ∧
    mapGet (handleMessage routerTrue
        (execState routerTrue (tConsumeB.take 5)) "B"
        (some ⟨ClientEvent.consume "t2" "p1" "caps" "c1", some "r4"⟩)).1.peers
        "B"
      = some (PeerState.mk "B" [("t2", ())] []
          [("c1", Consumer.mk "c1" "p1" true)]) :=
  ⟨by decide,
   (C7_consumers_created_paused routerTrue).2 tConsumeB "c1" (by decide),
   ((C7_consumers_created_paused routerTrue).1
     (execState routerTrue (tConsumeB.take 5)) "B" "t2" "p1" "caps" "c1"
     (some "r4") (PeerState.mk "B" [("t2", ())] [] []) (by decide) (by decide)
     (by decide) (by decide) rfl).1⟩

/-! ## Claim C8 -/

theorem filterMap_eq_map_of_forall {α β : Type} (l : List α) (f : α → Option β)
    (g : α → β) (h : ∀ a ∈ l, f a = some (g a)) : l.filterMap f = l.map g := by
  induction l with
  | nil => rfl
  | cons x rest ih =>
      rw [List.filterMap_cons, h x (List.mem_cons_self _ _), List.map_cons,
        ih (fun a ha => h a (List.mem_cons_of_mem _ ha))]

/-- After a fresh registration, `findProducerPeer` can never name the new
peer: its just-created session owns nothing, and no other registry entry
carries its key. -/
theorem findProducerPeer_fresh_ne (s : ServerState) (p pid : String)
    (hp : mapHas s.peers p = false) :
    findProducerPeer (mapSet s.peers p (freshPeer p)) pid ≠ some p := by
  intro hc
  unfold findProducerPeer at hc
  rcases hfind : (mapSet s.peers p (freshPeer p)).find?
      (fun e => mapHas e.2.producers pid) with _ | e
  · rw [hfind] at hc
    simp at hc
  · rw [hfind] at hc
    have he := List.find?_some hfind
    have hmem := List.mem_of_find?_eq_some hfind
    have hcp : e.1 = p := by
      simpa using hc
    rcases mem_mapSet_elim hmem with h1 | h1
    · rw [h1] at he
      simp [freshPeer, mapHas, mapGet_nil] at he
    · have hpm : p ∈ mapKeys s.peers := hcp ▸ List.mem_map.2 ⟨e, h1, rfl⟩
      have := mapHas_iff_mem_keys.2 hpm
      rw [hp] at this
      exact absurd this (by decide)

theorem count_map_backfill (p pid : String) (l : List (String × Unit))
    (nd : (mapKeys l).Nodup) :
    (l.map (fun pr => (p, OutMsg.mk "new-producer" pr.1 none))).count
        (p, OutMsg.mk "new-producer" pid none)
      = if pid ∈ mapKeys l then 1 else 0 := by
  induction l with
  | nil => simp [mapKeys_nil]
  | cons e rest ih =>
      rw [mapKeys_cons, List.nodup_cons] at nd
      by_cases hpe : e.1 = pid
      · subst hpe
        have hnm : e.1 ∉ mapKeys rest := nd.1
        simp [List.count_cons, ih nd.2, mapKeys_cons, hnm]
      · have hpe' : ¬ pid = e.1 := fun hh => hpe hh.symm
        by_cases hmem : pid ∈ mapKeys rest
        · simp [List.count_cons, ih nd.2, mapKeys_cons, hpe, hpe', hmem]
        · simp [List.count_cons, ih nd.2, mapKeys_cons, hpe, hpe', hmem]

/-- C8: connecting a fresh peer backfills it with exactly one
`new-producer` notification per entry of the Producer Directory — the
fresh session owns none of them, so nothing is skipped and nothing is sent
for an owned producer (there are none): the output list is exactly the
directory mapped to notifications, each directory producer counted once,
every other id zero times, while the new session starts empty. -/
theorem C8_backfill_exactly_once (s : ServerState) (p : String)
    (hp : mapHas s.peers p = false) (nd : (mapKeys s.producers).Nodup) :
    (connect s p).2 = s.producers.map
      (fun pr => (p, OutMsg.mk "new-producer" pr.1 none)) ∧
    (∀ pid, pid ∈ mapKeys s.producers →
       (connect s p).2.count (p, OutMsg.mk "new-producer" pid none) = 1) ∧
    (∀ pid, pid ∉ mapKeys s.producers →
       (connect s p).2.count (p, OutMsg.mk "new-producer" pid none) = 0) ∧
    mapGet (connect s p).1.peers p = some (freshPeer p) := by
  have hmap : (connect s p).2 = s.producers.map
      (fun pr => (p, OutMsg.mk "new-producer" pr.1 none)) := by
    show s.producers.filterMap _ = _
    refine filterMap_eq_map_of_forall _ _ _ (fun pr _ => ?_)
    rw [if_neg (findProducerPeer_fresh_ne s p pr.1 hp)]
  refine ⟨hmap, ?_, ?_, mapGet_set_self _ _ _⟩
  · intro pid hpid
    rw [hmap, count_map_backfill p pid s.producers nd, if_pos hpid]
  · intro pid hpid
    rw [hmap, count_map_backfill p pid s.producers nd, if_neg hpid]

/-- Witness for C8: B joins after A produced p1 — exactly one notification
for p1, none for an absent id, and B's session starts empty. -/
theorem C8_backfill_exactly_once_witness :
    ((connect (execState routerTrue tProduceA) "B").2.count
       ("B", OutMsg.mk "new-producer" "p1" none) = 1) ∧
    ((connect (execState routerTrue tProduceA) "B").2.count
       ("B", OutMsg.mk "new-producer" "p2" none) = 0) ∧
    mapGet (connect (execState routerTrue tProduceA) "B").1.peers "B"
      = some (freshPeer "B") := by
  have h := C8_backfill_exactly_once (execState routerTrue tProduceA) "B"
    (by decide) (by decide)
  exact ⟨h.2.1 "p1" (by decide), h.2.2.1 "p2" (by decide), h.2.2.2⟩

/-! ## Claim C9 -/

theorem riseCount_add (c : Nat) (pid : String) (rest : List DirEvent) :
    riseCount c (DirEvent.add pid :: rest)
      = (if c = 0 then 1 else 0) + riseCount (c + 1) rest := rfl

theorem riseCount_remove (c : Nat) (pid : String) (rest : List DirEvent) :
    riseCount c (DirEvent.remove pid :: rest) = riseCount (c - 1) rest := rfl

theorem dropToZeroCount_add (c : Nat) (pid : String) (rest : List DirEvent) :
    dropToZeroCount c (DirEvent.add pid :: rest)
      = dropToZeroCount (c + 1) rest := rfl

theorem dropToZeroCount_remove (c : Nat) (pid : String) (rest : List DirEvent) :
    dropToZeroCount c (DirEvent.remove pid :: rest)
      = (if c = 1 then 1 else 0) + dropToZeroCount (c - 1) rest := rfl

/-- Provisioning and teardown cycles are exactly the 0→1 and →0 directory
transitions: over well-formed event sequences the bridge's counters equal
the transition counts. -/
theorem egress_counts (evs : List DirEvent) :
    ∀ b, egressWfFrom b evs = true →
      (evs.foldl egressStep b).provisionCount
        = b.provisionCount + riseCount b.count evs ∧
      (evs.foldl egressStep b).teardownCount
        = b.teardownCount + dropToZeroCount b.count evs := by
  induction evs with
  | nil =>
      intro b _
      simp [riseCount, dropToZeroCount]
  | cons ev rest ih =>
      intro b hw
      cases ev with
      | add pid =>
          have hw' : egressWfFrom (egressStep b (DirEvent.add pid)) rest
              = true := by
            simpa [egressWfFrom] using hw
          rw [List.foldl_cons]
          obtain ⟨h1, h2⟩ := ih _ hw'
          by_cases hz : b.count = 0
          · have hstep : egressStep b (DirEvent.add pid)
                = ⟨b.count + 1, some b.nextGen, [pid], b.nextGen + 1,
                    b.provisionCount + 1, b.teardownCount⟩ := by
              simp only [egressStep]
              rw [if_pos (by omega : b.count + 1 = 1), hz]
            rw [hstep] at h1 h2
            rw [hstep, riseCount_add, dropToZeroCount_add, if_pos hz]
            dsimp only at h1 h2
            exact ⟨by omega, by omega⟩
          · have hc1 : ¬ (b.count + 1 = 1) := by omega
            by_cases hpp : b.piped.contains pid = true
            · have hstep : egressStep b (DirEvent.add pid)
                  = { b with count := b.count + 1 } := by
                simp only [egressStep]
                rw [if_neg hc1, if_pos hpp]
              rw [hstep] at h1 h2
              rw [hstep, riseCount_add, dropToZeroCount_add, if_neg hz]
              dsimp only at h1 h2
              exact ⟨by omega, by omega⟩
            · have hstep : egressStep b (DirEvent.add pid)
                  = { b with count := b.count + 1, piped := b.piped ++ [pid] } := by
                simp only [egressStep]
                rw [if_neg hc1, if_neg hpp]
              rw [hstep] at h1 h2
              rw [hstep, riseCount_add, dropToZeroCount_add, if_neg hz]
              dsimp only at h1 h2
              exact ⟨by omega, by omega⟩
      | remove pid =>
          rw [show egressWfFrom b (DirEvent.remove pid :: rest)
              = (decide (0 < b.count) &&
                 egressWfFrom (egressStep b (DirEvent.remove pid)) rest)
              from rfl, Bool.and_eq_true] at hw
          obtain ⟨hpos', hw'⟩ := hw
          have hpos : 0 < b.count := of_decide_eq_true hpos'
          rw [List.foldl_cons]
          obtain ⟨h1, h2⟩ := ih _ hw'
          by_cases ho : b.count = 1
          · have hstep : egressStep b (DirEvent.remove pid)
                = ⟨b.count - 1, none, [], b.nextGen, b.provisionCount,
                    b.teardownCount + 1⟩ := by
              simp only [egressStep]
              rw [if_pos (by omega : b.count - 1 = 0)]
            rw [hstep] at h1 h2
            rw [hstep, riseCount_remove, dropToZeroCount_remove, if_pos ho]
            dsimp only at h1 h2
            exact ⟨by omega, by omega⟩
          · have hstep : egressStep b (DirEvent.remove pid)
                = { b with count := b.count - 1 } := by
              simp only [egressStep]
              rw [if_neg (by omega : ¬ (b.count - 1 = 0))]
            rw [hstep] at h1 h2
            rw [hstep, riseCount_remove, dropToZeroCount_remove, if_neg ho]
            dsimp only at h1 h2
            exact ⟨by omega, by omega⟩

/-- The bridge invariant is preserved by every well-formed event. -/
theorem egress_inv_fold (evs : List DirEvent) :
    ∀ b, egressWfFrom b evs = true → EgressInv b →
      EgressInv (evs.foldl egressStep b) := by
  induction evs with
  | nil =>
      intro b _ h
      exact h
  | cons ev rest ih =>
      intro b hw hinv
      obtain ⟨hi1, hi2, hi3, hi4⟩ := hinv
      cases ev with
      | add pid =>
          have hw' : egressWfFrom (egressStep b (DirEvent.add pid)) rest
              = true := by
            simpa [egressWfFrom] using hw
          rw [List.foldl_cons]
          refine ih _ hw' ?_
          by_cases hz : b.count = 0
          · have hstep : egressStep b (DirEvent.add pid)
                = ⟨b.count + 1, some b.nextGen, [pid], b.nextGen + 1,
                    b.provisionCount + 1, b.teardownCount⟩ := by
              simp only [egressStep]
              rw [if_pos (by omega : b.count + 1 = 1), hz]
            rw [hstep]
            refine ⟨by simp, ?_, by simp [hi3], by simp⟩
            intro g hg
            have hbg : b.nextGen = g := by simpa using hg
            dsimp only
            omega
          · have hc1 : ¬ (b.count + 1 = 1) := by omega
            have hpos : 0 < b.count := by omega
            by_cases hpp : b.piped.contains pid = true
            · have hstep : egressStep b (DirEvent.add pid)
                  = { b with count := b.count + 1 } := by
                simp only [egressStep]
                rw [if_neg hc1, if_pos hpp]
              rw [hstep]
              refine ⟨?_, hi2, hi3, hi4⟩
              dsimp only
              exact iff_of_true (hi1.2 hpos) (by omega)
            · have hstep : egressStep b (DirEvent.add pid)
                  = { b with count := b.count + 1, piped := b.piped ++ [pid] } := by
                simp only [egressStep]
                rw [if_neg hc1, if_neg hpp]
              rw [hstep]
              have hctf : b.piped.contains pid = false := by
                simpa using hpp
              have hnp : pid ∉ b.piped := by
                simpa using hctf
              refine ⟨?_, hi2, hi3, by simp [List.nodup_append, hi4, hnp]⟩
              dsimp only
              exact iff_of_true (hi1.2 hpos) (by omega)
      | remove pid =>
          rw [show egressWfFrom b (DirEvent.remove pid :: rest)
              = (decide (0 < b.count) &&
                 egressWfFrom (egressStep b (DirEvent.remove pid)) rest)
              from rfl, Bool.and_eq_true] at hw
          obtain ⟨hpos', hw'⟩ := hw
          have hpos : 0 < b.count := of_decide_eq_true hpos'
          rw [List.foldl_cons]
          refine ih _ hw' ?_
          by_cases hz : b.count - 1 = 0
          · have hstep : egressStep b (DirEvent.remove pid)
                = ⟨b.count - 1, none, [], b.nextGen, b.provisionCount,
                    b.teardownCount + 1⟩ := by
              simp only [egressStep]
              rw [if_pos hz]
            rw [hstep]
            exact ⟨by simp [hz], by simp, by simp [hi3], by simp⟩
          · have hstep : egressStep b (DirEvent.remove pid)
                = { b with count := b.count - 1 } := by
              simp only [egressStep]
              rw [if_neg hz]
            rw [hstep]
            refine ⟨?_, hi2, hi3, hi4⟩
            dsimp only
            exact iff_of_true (hi1.2 hpos) (by omega)

/-- C9 (spec-modelled): over every well-formed directory event sequence
the bridge provisions exactly once per 0→1 producer transition and tears
down exactly once per transition to 0 (so 1→2→1→0 tears down once, not
twice); at most one egress session is alive at a time — alive exactly
while producers exist — and the session alive after any provisioning is
the freshest spawned process: its generation is one less than the number
of provisioning cycles ever run, so a cycle after a teardown runs a new
transcoder; and the piped set never pipes a producer twice. -/
theorem C9_egress_lifecycle (evs : List DirEvent)
    (hw : egressWfFrom egressInit evs = true) :
    (egressRun evs).provisionCount = riseCount 0 evs ∧
    (egressRun evs).teardownCount = dropToZeroCount 0 evs ∧
    ((egressRun evs).session.isSome ↔ 0 < (egressRun evs).count) ∧
    (∀ g, (egressRun evs).session = some g →
       g + 1 = (egressRun evs).provisionCount) ∧
    (egressRun evs).piped.Nodup := by
  obtain ⟨h1, h2⟩ := egress_counts evs egressInit hw
  have hinv := egress_inv_fold evs egressInit hw
    ⟨by simp [egressInit], by simp [egressInit], rfl, by simp [egressInit]⟩
  obtain ⟨hi1, hi2, hi3, hi4⟩ := hinv
  refine ⟨by simpa [egressRun, egressInit] using h1,
    by simpa [egressRun, egressInit] using h2, hi1, ?_, hi4⟩
  intro g hg
  show g + 1 = (evs.foldl egressStep egressInit).provisionCount
  rw [← hi3]
  exact hi2 g hg

/-- Witness for C9: on the 0→1→2→1→0 run both counters come out 1; and a
fresh 0→1 cycle after a teardown carries a new process generation. -/
theorem C9_egress_lifecycle_witness :
    egressWfFrom egressInit
      [DirEvent.add "p1", DirEvent.add "p2", DirEvent.remove "p1",
        DirEvent.remove "p2"] = true ∧
    (egressRun [DirEvent.add "p1", DirEvent.add "p2", DirEvent.remove "p1",
        DirEvent.remove "p2"]).provisionCount
      = riseCount 0 [DirEvent.add "p1", DirEvent.add "p2",
        DirEvent.remove "p1", DirEvent.remove "p2"] ∧
    (egressRun [DirEvent.add "p1", DirEvent.add "p2", DirEvent.remove "p1",
        DirEvent.remove "p2"]).teardownCount = 1 ∧
    (egressRun [DirEvent.add "p1", DirEvent.remove "p1",
        DirEvent.add "p2"]).session = some 1 ∧
    (egressRun [DirEvent.add "p1"]).session = some 0 :=
  ⟨by decide,
   (C9_egress_lifecycle
     [DirEvent.add "p1", DirEvent.add "p2", DirEvent.remove "p1",
       DirEvent.remove "p2"] (by decide)).1,
   by decide, by decide, by decide⟩

/-! ## Claim C10 -/

/-- C10: a consume request naming a producer the requester itself owns —
with the transport and producer lookups succeeding — makes the handler
return at the own-producer guard: the output list is empty (no consume
reply and no error event ever reaches the channel) and the state is
returned untouched, so a client-side pending request for it can only end
by its local timeout. -/
theorem C10_own_producer_consume_silent (router : Router) (s : ServerState)
    (q tid pid caps cid : String) (rid : Option String) (qs : PeerState)
    (hget : mapGet s.peers q = some qs) (ht : mapHas qs.transports tid = true)
    (hpd : mapHas s.producers pid = true)
    (hown : findProducerPeer s.peers pid = some q) :
    handleMessage router s q (some ⟨ClientEvent.consume tid pid caps cid, rid⟩)
      = (s, []) :=
  handleMessage_consume_own router s q tid pid caps cid rid qs hget ht hpd hown

/-- Witness for C10: A consuming its own p1 gets nothing back. -/
theorem C10_own_producer_consume_silent_witness :
    handleMessage routerTrue (execState routerTrue tProduceA) "A"
        (some ⟨ClientEvent.consume "t1" "p1" "caps" "c9", some "r6"⟩)
      = (execState routerTrue tProduceA, []) :=
  C10_own_producer_consume_silent routerTrue (execState routerTrue tProduceA)
    "A" "t1" "p1" "caps" "c9" (some "r6")
    (PeerState.mk "A" [("t1", ())] [("p1", ())] []) (by decide) (by decide)
    (by decide) (by decide)

end VideoConf
